import Mathlib

/-!
Verification of the Job Orchestration Engine of `transcriber-pro`
(`server/transcription.go`).

The Go engine is shallowly embedded as an explicit state machine:

* pure data (`Job`, `TranscriptionResult`, …) becomes Lean structures;
* `float64` quantities (progress percentages, durations in seconds)
  become `Rat`;
* each mutex-protected critical section of the scheduler goroutine
  (`processQueue` + `Transcribe`) and of the estimator goroutines
  (`estimateProgress`) becomes one atomic transition of a labelled step
  relation, so that arbitrary interleavings of the HTTP-facing
  operations (`CreateJob`, `CancelJob`, `KillJob`), the scheduler loop
  and the estimator ticks can be explored;
* the HTTP-facing operations `CreateJob` and `CancelJob`, whose
  critical sections run back to back in a single handler call, are
  modelled as single composite transitions (`createJob`, `cancelJob`);
  `KillJob` is split into its four separately-locked (or unlocked)
  sections — cancel mark, handle snapshot, `Process.Kill` attempt with
  its error return, registry write — so that scheduler and estimator
  steps can interleave between them;
* external effects (ffprobe duration probe, worker process outcome,
  wall-clock elapsed time at an estimator tick) are inputs carried by
  the transition labels.

Lock-acquisition order (claim C2) is modelled separately by per-function
lock-event traces extracted from the source.
-/

namespace Transcriber

/-- `JobStatus` from transcription.go (lines 21-29). -/
inductive JobStatus
  | queued
  | processing
  | transcribing
  | completed
  | failed
deriving DecidableEq

/-- `TranscriptionSegment` (lines 51-55); `End` is rendered `endTime`. -/
structure TranscriptionSegment where
  start : Rat
  endTime : Rat
  text : String
deriving DecidableEq

/-- `TranscriptionResult` (lines 45-49). -/
structure TranscriptionResult where
  text : String
  segments : List TranscriptionSegment
  language : String
deriving DecidableEq

/-- `Job` (lines 31-43).  `Progress` is a `float64` in Go, modelled as `Rat`. -/
structure Job where
  id : String
  status : JobStatus
  progress : Rat
  message : String
  eta : String
  result : Option TranscriptionResult
  error : String
  fileName : String
  queuePosition : Nat
  audioPath : String
  language : String
deriving DecidableEq

/-- The registry `jobs map[string]*Job` as an association list. -/
abbrev Registry := List (String × Job)

/-- Go map read `jobs[id]`. -/
def jfind : Registry → String → Option Job
  | [], _ => none
  | p :: ps, id => if p.1 = id then some p.2 else jfind ps id

/-- Go map write `jobs[id] = job`: replace the binding if present,
otherwise add it. -/
def jinsert (js : Registry) (id : String) (j : Job) : Registry :=
  match js with
  | [] => [(id, j)]
  | p :: ps => if p.1 = id then (id, j) :: ps else p :: jinsert ps id j

/-- Mutation of the job `jobs[id]` through its pointer, as done inside
`updateJob`, `updateQueuePositions`, `CancelJob` and `KillJob` while
holding `jobsMutex`; a no-op when the id is absent. -/
def jupdate : Registry → String → (Job → Job) → Registry
  | [], _, _ => []
  | p :: ps, id, f => (if p.1 = id then (p.1, f p.2) else p) :: jupdate ps id f

/-- `formatDuration` (lines 458-475).  In Go, `time.Duration(seconds)`
truncates the `float64` to whole (nano)seconds before scaling, so for
non-negative input the hours/minutes/seconds are computed from
`⌊seconds⌋`. -/
def formatDuration (seconds : Rat) : String :=
  if seconds < 0 then "Almost done..."
  else
    let s : Nat := seconds.floor.toNat
    let hours : Nat := s / 3600
    let minutes : Nat := (s / 60) % 60
    let secs : Nat := s % 60
    if hours > 0 then
      toString hours ++ "h " ++ toString minutes ++ "m remaining"
    else if minutes > 0 then
      toString minutes ++ "m " ++ toString secs ++ "s remaining"
    else
      toString secs ++ "s remaining"

/-- The progress value written by one estimator tick
(`estimateProgress`, lines 443-447): `elapsed / expectedTime * 100`,
cut to 99 when it exceeds 99. -/
def estimProgress (elapsed expectedTime : Rat) : Rat :=
  let p := elapsed / expectedTime * 100
  if p > 99 then 99 else p

/-- The advisory message written by one estimator tick (line 453).
Go renders the percentage with `%.0f` (round-half-even); the model uses
round-half-up, a divergence no claim depends on. -/
def progressMessage (p : Rat) : String :=
  "Transcribing... " ++ toString (p + 1 / 2).floor ++ "%"

/-- The worker response (`WorkerResponse`, lines 395-401). -/
structure WorkerResp where
  success : Bool
  text : String
  segments : List TranscriptionSegment
  error : String
deriving DecidableEq

/-- Result of the blocking `cmd.Output()` call (line 367): either the
call itself returned an error (non-zero exit, killed process), or it
returned output, which `json.Unmarshal` then parses (`none` = malformed). -/
inductive WorkerOutcome
  | runErr (msg : String)
  | output (parsed : Option WorkerResp)
deriving DecidableEq

/-- Arguments of one `updateJob` call (lines 477-493). -/
structure UpdArgs where
  status : JobStatus
  progress : Rat
  message : String
  eta : String
  result : Option TranscriptionResult
  error : String
deriving DecidableEq

/-- Body of `updateJob` (lines 481-492): status/progress/message/eta are
overwritten; `Result` only when non-nil; `Error` only when non-empty. -/
def applyUpd (a : UpdArgs) (j : Job) : Job :=
  { j with
    status := a.status
    progress := a.progress
    message := a.message
    eta := a.eta
    result := match a.result with
      | some r => some r
      | none => j.result
    error := if a.error = "" then j.error else a.error }

/-- `updateJob` (lines 477-493): a no-op when the id is absent. -/
def updateJob (js : Registry) (id : String) (a : UpdArgs) : Registry :=
  jupdate js id (applyUpd a)

/-- One `estimateProgress` goroutine (lines 428-456).
`stopped` means the scheduler has closed its `stop` channel,
`done` means the goroutine has returned, and `pending = some elapsed`
means its tick body has passed the `IsCancelled` check and is about to
call `updateJob` with the values computed from `elapsed`. -/
structure EstState where
  job : String
  expectedTime : Rat
  stopped : Bool
  done : Bool
  pending : Option Rat
deriving DecidableEq

/-- Program counter of the single scheduler goroutine, i.e. of
`processQueue` (lines 247-303) with `Transcribe` (lines 305-426)
inlined.  Each constructor is the point between two mutex-protected
critical sections; the data fields are the scheduler's locals. -/
inductive SPC
  | idle
  | snap (jobID : String)
  | durProbe (jobID audioPath language : String)
  | startEst (jobID language : String) (expectedTime : Rat)
  | setWorker (jobID language : String) (ei : Nat)
  | runWorker (jobID language : String) (ei : Nat)
  | clearWorker (jobID language : String) (ei : Nat) (out : WorkerOutcome)
  | closeStop (jobID language : String) (ei : Nat) (out : WorkerOutcome)
  | decideOutcome (jobID language : String) (out : WorkerOutcome)
  | finalWrite (jobID : String) (args : UpdArgs)
  | popHead
  | repos
deriving DecidableEq

/-- Control state of an in-flight `KillJob` call (lines 754-783),
between its separately-locked sections.  `readW id` = the cancel mark
(lines 756-758) is done, the handle read (lines 761-763) is next;
`signal id cmd` = the handle snapshot `cmd` is taken, the
`Process.Kill` attempt (lines 765-771) is next; `writeJ id` = the kill
attempt succeeded or was skipped, the registry write (lines 774-780)
is next. -/
inductive KillPhase
  | readW (id : String)
  | signal (id : String) (cmd : Option String)
  | writeJ (id : String)
deriving DecidableEq

/-- The `TranscriptionEngine` shared state (lines 57-70) plus the
control state of the scheduler goroutine, of all estimator goroutines
ever spawned, and of an in-flight `KillJob` call. -/
structure Engine where
  jobs : Registry
  queue : List String
  isProcessing : Bool
  cancelled : List String
  workerCmd : Option String
  spc : SPC
  ests : List EstState
  killer : Option KillPhase := none
deriving DecidableEq

/-- The per-entry update of `updateQueuePositions` (lines 235-244). -/
def posJob (i : Nat) (isProc : Bool) (j : Job) : Job :=
  { j with
    queuePosition := i + 1
    message := if i = 0 && isProc then "Processing..."
      else "Waiting in queue (position " ++ toString (i + 1) ++ ")" }

/-- The loop of `updateQueuePositions` (lines 235-245): walk the queue
with index `i`, updating each job that exists in the registry. -/
def setPositions (isProc : Bool) : Registry → List String → Nat → Registry
  | js, [], _ => js
  | js, id :: rest, i =>
      setPositions isProc (jupdate js id (posJob i isProc)) rest (i + 1)

/-- `updateQueuePositions` (lines 227-245), jobs and queue locked
together. -/
def updateQueuePositions (e : Engine) : Engine :=
  { e with jobs := setPositions e.isProcessing e.jobs e.queue 0 }

/-- The fresh record written by `CreateJob` (lines 141-149). -/
def freshJob (id fileName audioPath language : String) : Job :=
  { id := id
    status := .queued
    progress := 0
    message := "Waiting in queue..."
    eta := ""
    result := none
    error := ""
    fileName := fileName
    queuePosition := 0
    audioPath := audioPath
    language := language }

/-- `CreateJob` (lines 139-165): write the registry entry, append the id
to the queue, then recompute queue positions.  There is no duplicate-id
check and no error return in the source. -/
def createJob (e : Engine) (id fileName audioPath language : String) : Engine :=
  updateQueuePositions
    { e with
      jobs := jinsert e.jobs id (freshJob id fileName audioPath language)
      queue := e.queue ++ [id] }

/-- Go map write `cancelledJobs[id] = true`. -/
def insertC (l : List String) (id : String) : List String :=
  if id ∈ l then l else l ++ [id]

/-- `IsCancelled` (lines 747-751). -/
def isCancelled (e : Engine) (id : String) : Bool :=
  e.cancelled.contains id

/-- The queue scan of `CancelJob` (lines 707-718): one pass recording
whether the id was found, whether its (last) match was at index 0, and
the queue with every match removed. -/
def cancelScanAux (id : String) :
    List String → Nat → Bool → Bool → List String → Bool × Bool × List String
  | [], _, found, isFirst, acc => (found, isFirst, acc.reverse)
  | q :: rest, i, found, isFirst, acc =>
      if q = id then cancelScanAux id rest (i + 1) true (i == 0) acc
      else cancelScanAux id rest (i + 1) found isFirst (q :: acc)

/-- `CancelJob` (lines 696-744): mark cancelled first, then remove from
the queue (error if absent), then mark the job Failed, then recompute
positions.  The second component is the returned error. -/
def cancelJob (e : Engine) (id : String) : Engine × Option String :=
  let e1 := { e with cancelled := insertC e.cancelled id }
  let scan := cancelScanAux id e1.queue 0 false false []
  if scan.1 then
    let isProcessingJob := scan.2.1 && e1.isProcessing
    let e2 := { e1 with queue := scan.2.2 }
    let e3 := { e2 with
      jobs := jupdate e2.jobs id (fun j =>
        { j with
          status := .failed
          error := "Cancelled by user"
          message := if isProcessingJob then "Cancelling..." else "Cancelled" }) }
    (updateQueuePositions e3, none)
  else (e1, some "job not found in queue")

/-- The job mutation of `KillJob` (lines 774-780). -/
def killUpd (j : Job) : Job :=
  { j with status := .failed, error := "Killed by user", message := "Killed" }

/-- `updateJob` argument sets used by the scheduler (`Transcribe`). -/
def cancelArgs : UpdArgs :=
  ⟨.failed, 0, "", "", none, "Cancelled by user"⟩

def durFailArgs : UpdArgs :=
  ⟨.failed, 0, "", "", none, "Failed to get audio duration"⟩

def workerFailArgs (msg : String) : UpdArgs :=
  ⟨.failed, 0, "", "", none, "Worker failed: " ++ msg⟩

def parseFailArgs : UpdArgs :=
  ⟨.failed, 0, "", "", none, "Failed to parse worker response"⟩

def respFailArgs (errMsg : String) : UpdArgs :=
  ⟨.failed, 0, "", "", none, errMsg⟩

def completedArgs (r : TranscriptionResult) : UpdArgs :=
  ⟨.completed, 100, "Completed", "", some r, ""⟩

/-- The outcome dispatch of `Transcribe` after the worker returned
(lines 381-420): a cancelled job is Failed with "Cancelled by user"
regardless of the worker outcome; otherwise run errors, parse errors,
semantic failures and success are distinguished. -/
def outcomeArgs (cancelledFlag : Bool) (language : String) (out : WorkerOutcome) : UpdArgs :=
  if cancelledFlag then cancelArgs
  else
    match out with
    | .runErr m => workerFailArgs m
    | .output none => parseFailArgs
    | .output (some r) =>
        if r.success then completedArgs ⟨r.text, r.segments, language⟩
        else respFailArgs r.error

/-- The `updateJob` arguments of one estimator tick (lines 443-453). -/
def estArgs (elapsed expectedTime : Rat) : UpdArgs :=
  let p := estimProgress elapsed expectedTime
  ⟨.transcribing, p, progressMessage p, formatDuration (expectedTime - elapsed), none, ""⟩

/-- Modify estimator `i` in place; no-op for an invalid index. -/
def estModify (es : List EstState) (i : Nat) (f : EstState → EstState) : List EstState :=
  match es.get? i with
  | none => es
  | some est => es.set i (f est)

/-- Transition labels.  Caller-thread operations `create` and `cancel`
are single composite steps (their critical sections run back to back
inside one HTTP handler); a `KillJob` call is the step sequence
`killMark` (cancel mark, lines 756-758), `killRead` (handle snapshot,
lines 761-763), `killSignal` (the `Process.Kill` attempt and its
possible error return, lines 765-771), `killWrite` (registry write and
nil return, lines 774-782); scheduler and estimator labels are one
critical section each.  External inputs (ffprobe result, worker
outcome, elapsed wall time) ride on the labels. -/
inductive Label
  | create (id fileName audioPath language : String)
  | cancel (id : String)
  | killMark (id : String)
  | killRead
  | killSignal
  | killWrite
  | schedTake
  | schedSnap
  | schedDur (probe : Option Rat)
  | schedStartEst
  | schedSetWorker
  | schedWorkerRet (out : WorkerOutcome)
  | schedClearWorker
  | schedCloseStop
  | schedDecide
  | schedFinalWrite
  | schedPop
  | schedRepos
  | estTick (i : Nat) (elapsed : Rat)
  | estWrite (i : Nat)
  | estStop (i : Nat)
deriving DecidableEq

/-- Whether the `cmd.Process.Kill()` call of `KillJob` (line 767) fails
for a handle snapshot naming worker `w`.  The kill succeeds while the
scheduler is still blocked inside `cmd.Output()` (line 367) for that
same worker run — the process is alive, or already signalled but not
yet reaped — and `syscall.Kill` delivers the signal; once `Output` has
returned, the process has been waited on and `os.Process.Kill` reports
"os: process already finished".  Job ids are uuids (`main.go`,
line 166), so one id names one worker run and the scheduler's program
point identifies it. -/
def killFails (e : Engine) (w : String) : Bool :=
  match e.spc with
  | .runWorker id _ _ => !(id == w)
  | _ => true

/-- The error `KillJob` returns on the `Process.Kill` failure path
(line 768): `fmt.Errorf("failed to kill worker process: %w", err)`
wrapping the reaped-process error. -/
def killFailMsg : String := "failed to kill worker process: os: process already finished"

/-- One atomic transition of the engine.  `sf` is the platform speed
factor (`speedFactor`, lines 312-317).  `none` means the label is not
enabled in this state. -/
def step (sf : Rat) (e : Engine) : Label → Option Engine
  | .create id fn ap lang => some (createJob e id fn ap lang)
  | .cancel id => some (cancelJob e id).1
  | .killMark id =>
      match e.killer with
      | none => some { e with cancelled := insertC e.cancelled id, killer := some (.readW id) }
      | some _ => none
  | .killRead =>
      match e.killer with
      | some (.readW id) => some { e with killer := some (.signal id e.workerCmd) }
      | _ => none
  | .killSignal =>
      match e.killer with
      | some (.signal id none) => some { e with killer := some (.writeJ id) }
      | some (.signal id (some w)) =>
          if killFails e w then some { e with killer := none }
          else some { e with killer := some (.writeJ id) }
      | _ => none
  | .killWrite =>
      match e.killer with
      | some (.writeJ id) => some { e with jobs := jupdate e.jobs id killUpd, killer := none }
      | _ => none
  | .schedTake =>
      match e.spc, e.queue with
      | .idle, id :: _ => some { e with isProcessing := true, spc := .snap id }
      | _, _ => none
  | .schedSnap =>
      match e.spc with
      | .snap id =>
          match jfind e.jobs id with
          | none => some { e with spc := .popHead }
          | some j =>
              if j.audioPath = "" ∨ (j.status = .failed ∧ j.error = "Cancelled by user") then
                some { e with spc := .popHead }
              else
                some { e with spc := .durProbe id j.audioPath j.language }
      | _ => none
  | .schedDur probe =>
      match e.spc with
      | .durProbe id _ lang =>
          match probe with
          | none => some { e with spc := .finalWrite id durFailArgs }
          | some d => some { e with spc := .startEst id lang (d / sf) }
      | _ => none
  | .schedStartEst =>
      match e.spc with
      | .startEst id lang exp =>
          some { e with
            ests := e.ests ++ [⟨id, exp, false, false, none⟩]
            spc := .setWorker id lang e.ests.length }
      | _ => none
  | .schedSetWorker =>
      match e.spc with
      | .setWorker id lang ei =>
          some { e with workerCmd := some id, spc := .runWorker id lang ei }
      | _ => none
  | .schedWorkerRet out =>
      match e.spc with
      | .runWorker id lang ei => some { e with spc := .clearWorker id lang ei out }
      | _ => none
  | .schedClearWorker =>
      match e.spc with
      | .clearWorker id lang ei out =>
          some { e with workerCmd := none, spc := .closeStop id lang ei out }
      | _ => none
  | .schedCloseStop =>
      match e.spc with
      | .closeStop id lang ei out =>
          some { e with
            ests := estModify e.ests ei (fun x => { x with stopped := true })
            spc := .decideOutcome id lang out }
      | _ => none
  | .schedDecide =>
      match e.spc with
      | .decideOutcome id lang out =>
          some { e with spc := .finalWrite id (outcomeArgs (isCancelled e id) lang out) }
      | _ => none
  | .schedFinalWrite =>
      match e.spc with
      | .finalWrite id args =>
          some { e with jobs := updateJob e.jobs id args, spc := .popHead }
      | _ => none
  | .schedPop =>
      match e.spc with
      | .popHead =>
          some { e with queue := e.queue.drop 1, isProcessing := false, spc := .repos }
      | _ => none
  | .schedRepos =>
      match e.spc with
      | .repos => some { updateQueuePositions e with spc := .idle }
      | _ => none
  | .estTick i elapsed =>
      match e.ests.get? i with
      | some est =>
          if est.done || est.pending.isSome || elapsed < 0 then none
          else if isCancelled e est.job then
            some { e with ests := estModify e.ests i (fun x => { x with done := true }) }
          else
            some { e with ests := estModify e.ests i (fun x => { x with pending := some elapsed }) }
      | none => none
  | .estWrite i =>
      match e.ests.get? i with
      | some est =>
          match est.pending with
          | some el =>
              if est.done then none
              else
                some { e with
                  jobs := updateJob e.jobs est.job (estArgs el est.expectedTime)
                  ests := estModify e.ests i (fun x => { x with pending := none }) }
          | none => none
      | none => none
  | .estStop i =>
      match e.ests.get? i with
      | some est =>
          if est.stopped && !est.done && est.pending.isNone then
            some { e with ests := estModify e.ests i (fun x => { x with done := true }) }
          else none
      | none => none

/-- The value a `KillJob` call returns at the step that ends it:
`some (some msg)` = the call returns the error `msg` at the failed
`Process.Kill` (line 768); `some none` = the call returns nil at the
end of the registry write (line 782); `none` = this step does not end
a kill call. -/
def killRet (e : Engine) : Label → Option (Option String)
  | .killSignal =>
      match e.killer with
      | some (.signal _ (some w)) =>
          if killFails e w then some (some killFailMsg) else none
      | _ => none
  | .killWrite =>
      match e.killer with
      | some (.writeJ _) => some none
      | _ => none
  | _ => none

/-- The four sections of one full `KillJob id` call, back to back. -/
def killSeq (id : String) : List Label :=
  [.killMark id, .killRead, .killSignal, .killWrite]

/-- The engine state right after `NewTranscriptionEngine`
(lines 114-126). -/
def initEngine : Engine :=
  { jobs := []
    queue := []
    isProcessing := false
    cancelled := []
    workerCmd := none
    spc := .idle
    ests := [] }

/-- Run a list of labelled steps. -/
def runFrom (sf : Rat) : Engine → List Label → Option Engine
  | e, [] => some e
  | e, l :: ls =>
      match step sf e l with
      | none => none
      | some e' => runFrom sf e' ls

/-- Reachability under arbitrary interleavings. -/
def Reach (sf : Rat) (e : Engine) : Prop :=
  ∃ ls, runFrom sf initEngine ls = some e

/-- An estimator step is `stale` when taken after the scheduler closed
that estimator's stop channel (the Go `select` may keep choosing the
`ticker.C` case even once `stop` is closed).  `syncOK` rules such steps
out. -/
def syncOK (e : Engine) : Label → Bool
  | .estTick i _ =>
      match e.ests.get? i with
      | some est => !est.stopped
      | none => true
  | .estWrite i =>
      match e.ests.get? i with
      | some est => !est.stopped
      | none => true
  | _ => true

/-- `step` restricted to executions without stale estimator steps. -/
def stepSync (sf : Rat) (e : Engine) (l : Label) : Option Engine :=
  if syncOK e l then step sf e l else none

def runSyncFrom (sf : Rat) : Engine → List Label → Option Engine
  | e, [] => some e
  | e, l :: ls =>
      match stepSync sf e l with
      | none => none
      | some e' => runSyncFrom sf e' ls

/-- Reachability without stale estimator steps. -/
def ReachSync (sf : Rat) (e : Engine) : Prop :=
  ∃ ls, runSyncFrom sf initEngine ls = some e

/-- Number of registry entries whose status is `st`. -/
def countStatus (e : Engine) (st : JobStatus) : Nat :=
  (e.jobs.filter (fun p => decide (p.2.status = st))).length

/-- The job the scheduler goroutine is currently working on, if any. -/
def spcCurrent : SPC → Option String
  | .idle | .popHead | .repos => none
  | .snap id => some id
  | .durProbe id _ _ => some id
  | .startEst id _ _ => some id
  | .setWorker id _ _ => some id
  | .runWorker id _ _ => some id
  | .clearWorker id _ _ _ => some id
  | .closeStop id _ _ _ => some id
  | .decideOutcome id _ _ => some id
  | .finalWrite id _ => some id

/-- The index of the estimator the scheduler spawned for the current
call and has not yet stopped. -/
def spcEstIdx : SPC → Option Nat
  | .setWorker _ _ ei => some ei
  | .runWorker _ _ ei => some ei
  | .clearWorker _ _ ei _ => some ei
  | .closeStop _ _ ei _ => some ei
  | _ => none

/-- The value `workerCmd` must hold at each scheduler program point:
set between the store (line 363) and the clear (line 371). -/
def spcWorker : SPC → Option String
  | .runWorker id _ _ => some id
  | .clearWorker id _ _ _ => some id
  | _ => none

/-! ## Lock-acquisition order (claim C2)

Events on `jobsMutex` (the Registry lock, a `sync.RWMutex`) and
`queueMutex` (the PendingQueue lock) in the order each engine operation
performs them; write and read acquisitions of the registry lock are
distinguished.  `go`'s `defer`red unlocks run in LIFO order. -/

inductive LockEv
  | acqJobsW
  | relJobsW
  | acqJobsR
  | relJobsR
  | acqQueue
  | relQueue
deriving DecidableEq

/-- Checks that a trace never acquires the registry lock (in either
mode) while the queue lock is held, i.e. that whenever both locks are
held by the operation, the registry lock was taken first.  `qHeld`
tracks whether the queue lock is currently held. -/
def registryFirst : List LockEv → Bool → Bool
  | [], _ => true
  | ev :: rest, qHeld =>
      match ev with
      | .acqQueue => registryFirst rest true
      | .relQueue => registryFirst rest false
      | .acqJobsW => !qHeld && registryFirst rest qHeld
      | .acqJobsR => !qHeld && registryFirst rest qHeld
      | _ => registryFirst rest qHeld

/-- `updateQueuePositions` (lines 229-233): jobs write lock, queue
lock, then deferred unlocks in LIFO order. -/
def updateQueuePositionsLocks : List LockEv :=
  [.acqJobsW, .acqQueue, .relQueue, .relJobsW]

/-- `CreateJob` (lines 140-159): jobs section, queue section, then
`updateQueuePositions`. -/
def createJobLocks : List LockEv :=
  [.acqJobsW, .relJobsW, .acqQueue, .relQueue] ++ updateQueuePositionsLocks

/-- `GetJob` (lines 168-169). -/
def getJobLocks : List LockEv :=
  [.acqJobsR, .relJobsR]

/-- `GetQueue` (lines 179-183): `queueMutex.Lock()` first, then
`jobsMutex.RLock()` while still holding the queue lock; deferred
unlocks in LIFO order. -/
def getQueueLocks : List LockEv :=
  [.acqQueue, .acqJobsR, .relJobsR, .relQueue]

/-- One `processQueue` iteration (lines 249-301) with a representative
`updateJob` write section from `Transcribe` in the middle; `updateJob`
sections repeat but never overlap another lock. -/
def processQueueIterLocks : List LockEv :=
  [.acqQueue, .relQueue, .acqJobsR, .relJobsR, .acqJobsW, .relJobsW,
   .acqQueue, .relQueue] ++ updateQueuePositionsLocks

/-- `CancelJob` (lines 703-742), found path; the cancellation-set mutex
is a third lock not involved in the claim. -/
def cancelJobLocks : List LockEv :=
  [.acqQueue, .relQueue, .acqJobsW, .relJobsW] ++ updateQueuePositionsLocks

/-- `KillJob` (lines 774-780); worker and cancellation mutexes omitted
as above. -/
def killJobLocks : List LockEv :=
  [.acqJobsW, .relJobsW]

/-- `ClearCompletedJobs` (lines 638-642), deferred unlocks LIFO. -/
def clearCompletedLocks : List LockEv :=
  [.acqJobsW, .acqQueue, .relQueue, .relJobsW]

/-- `ClearAllJobs` (lines 666-691): explicit unlocks, then
`updateQueuePositions` after both locks are released. -/
def clearAllLocks : List LockEv :=
  [.acqJobsW, .acqQueue, .relQueue, .relJobsW] ++ updateQueuePositionsLocks

/-! ## Derived notions used by the claims -/

/-- Every `Job` field except the two that `updateQueuePositions`
rewrites (`queuePosition`, `message`). -/
def jobCore (j : Job) :
    String × JobStatus × Rat × Option TranscriptionResult × String × String × String × String × String :=
  (j.id, j.status, j.progress, j.result, j.error, j.eta, j.fileName, j.audioPath, j.language)

/-- Queue-position consistency: every id in the pending queue whose job
exists has `queuePosition` equal to its 1-based index. -/
def posConsistent (e : Engine) : Prop :=
  ∀ k (hk : k < e.queue.length) j,
    jfind e.jobs (e.queue.get ⟨k, hk⟩) = some j → j.queuePosition = k + 1

/-- Steps that write the fields of job `id` even when it is terminal:
a duplicate-id submission, and the registry write of a kill session
naming it (the session id lives in the state, not on the label). -/
def labelTouches (e : Engine) : Label → String → Bool
  | .create i _ _ _, id => i == id
  | .killWrite, id =>
      match e.killer with
      | some (.writeJ i) => i == id
      | _ => false
  | _, _ => false

/-- Scheduler phases during which a job may carry status Transcribing
(from the estimator spawned for the current worker call up to the
scheduler's terminal write). -/
def spcTranscrPhase : SPC → Bool
  | .setWorker _ _ _ => true
  | .runWorker _ _ _ => true
  | .clearWorker _ _ _ _ => true
  | .closeStop _ _ _ _ => true
  | .decideOutcome _ _ _ => true
  | .finalWrite _ _ => true
  | _ => false

/-- Inductive invariant of the engine for executions without stale
estimator steps. -/
structure InvP (e : Engine) : Prop where
  noProcessing : ∀ p ∈ e.jobs, p.2.status ≠ JobStatus.processing
  transcrOK : ∀ p ∈ e.jobs, p.2.status = JobStatus.transcribing →
      spcCurrent e.spc = some p.1 ∧ spcTranscrPhase e.spc = true
  estLive : ∀ i est, e.ests.get? i = some est → est.stopped = false →
      spcEstIdx e.spc = some i ∧ spcCurrent e.spc = some est.job
  argsTerminal : ∀ id args, e.spc = SPC.finalWrite id args →
      args.status = JobStatus.failed ∨ args.status = JobStatus.completed
  keysNodup : (e.jobs.map (fun p => p.1)).Nodup

/-- Invariant of the engine that holds for all executions, stale
estimator steps included: the worker handle matches the scheduler's
program point, and the scheduler only carries a progress-100 write when
the status written is Completed. -/
structure InvW (e : Engine) : Prop where
  worker : e.workerCmd = spcWorker e.spc
  argsOK : ∀ id args, e.spc = SPC.finalWrite id args → args.progress = 100 →
      args.status = JobStatus.completed

/-! ## Concrete scenarios -/

/-- A successful worker outcome. -/
def okOut : WorkerOutcome := .output (some ⟨true, "hello", [], ""⟩)

/-- The worker outcome after a forced kill. -/
def killErrOut : WorkerOutcome := .runErr "signal: killed"

/-- Full run of job A through completion, with one stale tick of A's
estimator left pending, then job B mid-transcription with its estimator
writing, then the stale write: both A and B end up Transcribing. -/
def c1CexTrace : List Label :=
  [ .create "A" "a.mp3" "/tmp/a" "en"
  , .schedTake, .schedSnap, .schedDur (some 30)
  , .schedStartEst, .schedSetWorker
  , .schedWorkerRet okOut
  , .schedClearWorker, .schedCloseStop
  , .estTick 0 10
  , .schedDecide, .schedFinalWrite, .schedPop, .schedRepos
  , .create "B" "b.mp3" "/tmp/b" "en"
  , .schedTake, .schedSnap, .schedDur (some 30)
  , .schedStartEst, .schedSetWorker
  , .estTick 1 5, .estWrite 1
  , .estWrite 0 ]

def c1CexEngine : Engine := (runFrom (3/2) initEngine c1CexTrace).getD initEngine

def c1WitnessTrace : List Label := [.create "W1" "w.mp3" "/tmp/w" "en"]

def c1WitnessEngine : Engine :=
  (runSyncFrom (3/2) initEngine c1WitnessTrace).getD initEngine

/-- Job A is mid-flight, a full `KillJob "A"` call runs (all four
sections, signal successful), the worker call returns with an error,
and the scheduler finishes the cycle. -/
def c3CexTrace : List Label :=
  [ .create "A" "a.mp3" "/tmp/a" "en"
  , .schedTake, .schedSnap, .schedDur (some 30)
  , .schedStartEst, .schedSetWorker
  , .killMark "A", .killRead, .killSignal, .killWrite
  , .schedWorkerRet killErrOut
  , .schedClearWorker, .schedCloseStop, .schedDecide, .schedFinalWrite
  , .schedPop, .schedRepos ]

def c3CexEngine : Engine := (runFrom (3/2) initEngine c3CexTrace).getD initEngine

/-- Job A mid-flight; `KillJob "A"` runs through its successful signal
but is preempted before its registry write; the worker call then
returns with the kill error and the scheduler reaches the outcome
dispatch (program point `decideOutcome`) with the kill's registry
write still pending. -/
def c3WitnessTrace : List Label :=
  [ .create "A" "a.mp3" "/tmp/a" "en"
  , .schedTake, .schedSnap, .schedDur (some 30)
  , .schedStartEst, .schedSetWorker
  , .killMark "A", .killRead, .killSignal
  , .schedWorkerRet killErrOut
  , .schedClearWorker, .schedCloseStop ]

def c3WitnessEngine : Engine := (runFrom (3/2) initEngine c3WitnessTrace).getD initEngine

def c3WitnessEngine1 : Engine :=
  (step (3/2) c3WitnessEngine .schedDecide).getD initEngine

def c3WitnessEngine2 : Engine :=
  (step (3/2) c3WitnessEngine1 .schedFinalWrite).getD initEngine

def c3WitnessEngine3 : Engine :=
  (step (3/2) c3WitnessEngine2 .killWrite).getD initEngine

/-- Job A runs to successful completion. -/
def c4CexTrace : List Label :=
  [ .create "A" "a.mp3" "/tmp/a" "en"
  , .schedTake, .schedSnap, .schedDur (some 30)
  , .schedStartEst, .schedSetWorker
  , .schedWorkerRet okOut
  , .schedClearWorker, .schedCloseStop, .schedDecide, .schedFinalWrite
  , .schedPop, .schedRepos ]

def c4CexEngine : Engine := (runFrom (3/2) initEngine c4CexTrace).getD initEngine

def c4CexEngine2 : Engine := (runFrom (3/2) c4CexEngine (killSeq "A")).getD initEngine

/-- Submit A, cancel it, then run a kill session for the absent id "B"
up to the point of its registry write. -/
def c4WitnessTrace : List Label :=
  [.create "A" "a.mp3" "/tmp/a" "en", .cancel "A",
   .killMark "B", .killRead, .killSignal]

def c4WitnessEngine : Engine :=
  (runSyncFrom (3/2) initEngine c4WitnessTrace).getD initEngine

def c4WitnessJob : Job :=
  (jfind c4WitnessEngine.jobs "A").getD (freshJob "A" "" "" "")

def c4WitnessEngine2 : Engine :=
  (stepSync (3/2) c4WitnessEngine .killWrite).getD initEngine

/-- Duplicate-id submission. -/
def c5CexEngineA : Engine := createJob initEngine "A" "f1" "p1" "en"

def c5CexEngineB : Engine := createJob c5CexEngineA "A" "f2" "p2" "en"

/-- Submit A then cancel it: A leaves the pending queue but keeps its
assigned queue position. -/
def c6CexEngine : Engine :=
  (cancelJob (createJob initEngine "A" "a.mp3" "/tmp/a" "en") "A").1

def c6WitnessEngine : Engine := createJob initEngine "A" "a.mp3" "/tmp/a" "en"

/-- An engine whose scheduler is at the position-recompute point. -/
def c6ReposEngine : Engine :=
  { c6WitnessEngine with spc := .repos }

def c6ReposEngine2 : Engine :=
  { updateQueuePositions c6ReposEngine with spc := .idle }

/-- Job A stopped at the scheduler program point `finalWrite` of a
successful run. -/
def c7WitnessTrace : List Label :=
  [ .create "A" "a.mp3" "/tmp/a" "en"
  , .schedTake, .schedSnap, .schedDur (some 30)
  , .schedStartEst, .schedSetWorker
  , .schedWorkerRet okOut
  , .schedClearWorker, .schedCloseStop, .schedDecide ]

def c7WitnessEngine : Engine := (runFrom (3/2) initEngine c7WitnessTrace).getD initEngine

def c7WitnessEngine2 : Engine :=
  (step (3/2) c7WitnessEngine .schedFinalWrite).getD initEngine

def c7WitnessJob : Job :=
  (jfind c7WitnessEngine2.jobs "A").getD (freshJob "A" "" "" "")

/-- A first kill of the active job A completes; the worker then
returns (its process is reaped) while the handle is not yet cleared; a
second `KillJob "A"` runs up to its handle snapshot — its
`Process.Kill` attempt is next and will fail. -/
def c8CexTrace : List Label :=
  [ .create "A" "a.mp3" "/tmp/a" "en"
  , .schedTake, .schedSnap, .schedDur (some 30)
  , .schedStartEst, .schedSetWorker
  , .killMark "A", .killRead, .killSignal, .killWrite
  , .schedWorkerRet killErrOut
  , .killMark "A", .killRead ]

def c8CexEngine : Engine := (runFrom (3/2) initEngine c8CexTrace).getD initEngine

def c8KillEngine1 : Engine := (runFrom (3/2) initEngine (killSeq "A")).getD initEngine

def c8KillEngine2 : Engine := (runFrom (3/2) c8KillEngine1 (killSeq "A")).getD initEngine

/-- Worker A finishes on its own; before the scheduler clears the
handle, `KillJob "A"` marks A cancelled and snapshots the stale
handle — its `Process.Kill` attempt is next and will fail. -/
def c10CexTrace : List Label :=
  [ .create "A" "a.mp3" "/tmp/a" "en"
  , .schedTake, .schedSnap, .schedDur (some 30)
  , .schedStartEst, .schedSetWorker
  , .schedWorkerRet okOut
  , .killMark "A", .killRead ]

def c10CexEngine : Engine := (runFrom (3/2) initEngine c10CexTrace).getD initEngine

def c10CexEngine2 : Engine := (step (3/2) c10CexEngine .killSignal).getD initEngine

/-- A registry holding job K, no live worker. -/
def c10KStart : Engine := createJob initEngine "K" "k.mp3" "/tmp/k" "en"

def c10KMark : Engine := (step (3/2) c10KStart (.killMark "K")).getD initEngine

/-- The same kill session advanced to its registry-write point (the
handle snapshot was nil, so the signal was skipped). -/
def c10KWrite : Engine :=
  (runFrom (3/2) c10KStart [.killMark "K", .killRead, .killSignal]).getD initEngine

def c10KDone : Engine := (step (3/2) c10KWrite .killWrite).getD initEngine

def c10KJob : Job := (jfind c10KWrite.jobs "K").getD (freshJob "K" "" "" "")

/-! ## Registry lemmas -/

theorem jfind_jinsert_self (js : Registry) (id : String) (j : Job) :
    jfind (jinsert js id j) id = some j := by
  induction js with
  | nil => simp [jfind, jinsert]
  | cons p ps ih =>
      by_cases h : p.1 = id
      · simp [jfind, jinsert, h]
      · simpa [jfind, jinsert, h] using ih

theorem jfind_jinsert_ne (js : Registry) (id id' : String) (j : Job)
    (h : id' ≠ id) : jfind (jinsert js id j) id' = jfind js id' := by
  induction js with
  | nil => simp [jfind, jinsert, Ne.symm h]
  | cons p ps ih =>
      by_cases hp : p.1 = id
      · subst hp
        simp [jfind, jinsert, Ne.symm h]
      · by_cases hp' : p.1 = id'
        · simp [jfind, jinsert, hp, hp', h]
        · simpa [jfind, jinsert, hp, hp'] using ih

theorem jfind_jupdate_self (js : Registry) (id : String) (f : Job → Job) :
    jfind (jupdate js id f) id = (jfind js id).map f := by
  induction js with
  | nil => simp [jfind, jupdate]
  | cons p ps ih =>
      by_cases h : p.1 = id
      · simp [jfind, jupdate, h]
      · simpa [jfind, jupdate, h] using ih

theorem jfind_jupdate_ne (js : Registry) (id id' : String) (f : Job → Job)
    (h : id' ≠ id) : jfind (jupdate js id f) id' = jfind js id' := by
  induction js with
  | nil => simp [jfind, jupdate]
  | cons p ps ih =>
      simp only [jupdate]
      by_cases hp : p.1 = id
      · have hne : ¬p.1 = id' := by rw [hp]; exact Ne.symm h
        simp only [if_pos hp, jfind]
        simp [hne, hp ▸ hne, ih]
      · simp only [if_neg hp, jfind]
        by_cases hp' : p.1 = id'
        · simp [hp']
        · simp [hp', ih]

theorem jupdate_of_find_none (js : Registry) (id : String) (f : Job → Job)
    (h : jfind js id = none) : jupdate js id f = js := by
  induction js with
  | nil => rfl
  | cons p ps ih =>
      by_cases hp : p.1 = id
      · simp [jfind, hp] at h
      · simp only [jfind, hp, if_neg hp, ite_false] at h ⊢
        simp [jupdate, hp, ih h]

theorem jupdate_jupdate (js : Registry) (id : String) (f g : Job → Job) :
    jupdate (jupdate js id f) id g = jupdate js id (fun j => g (f j)) := by
  induction js with
  | nil => rfl
  | cons p ps ih =>
      by_cases hp : p.1 = id
      · simp [jupdate, hp, ih]
      · simp [jupdate, hp, ih]

theorem mem_jinsert (js : Registry) (id : String) (j : Job) (p : String × Job)
    (h : p ∈ jinsert js id j) : p = (id, j) ∨ p ∈ js := by
  induction js with
  | nil => simpa [jinsert] using h
  | cons q qs ih =>
      by_cases hq : q.1 = id
      · simp only [jinsert, if_pos hq, List.mem_cons] at h
        rcases h with h | h
        · exact Or.inl h
        · exact Or.inr (List.mem_cons_of_mem _ h)
      · simp only [jinsert, if_neg hq, List.mem_cons] at h
        rcases h with h | h
        · exact Or.inr (h ▸ List.mem_cons_self _ _)
        · rcases ih h with h' | h'
          · exact Or.inl h'
          · exact Or.inr (List.mem_cons_of_mem _ h')

theorem mem_jupdate (js : Registry) (id : String) (f : Job → Job) (p : String × Job)
    (h : p ∈ jupdate js id f) :
    ∃ q ∈ js, p.1 = q.1 ∧ ((q.1 = id ∧ p.2 = f q.2) ∨ (q.1 ≠ id ∧ p.2 = q.2)) := by
  induction js with
  | nil => simp [jupdate] at h
  | cons q qs ih =>
      simp only [jupdate, List.mem_cons] at h
      rcases h with h | h
      · refine ⟨q, List.mem_cons_self _ _, ?_⟩
        by_cases hq : q.1 = id
        · simp only [if_pos hq] at h
          subst h
          exact ⟨rfl, Or.inl ⟨hq, rfl⟩⟩
        · simp only [if_neg hq] at h
          subst h
          exact ⟨rfl, Or.inr ⟨hq, rfl⟩⟩
      · rcases ih h with ⟨q', hq', h1, h2⟩
        exact ⟨q', List.mem_cons_of_mem _ hq', h1, h2⟩

theorem map_fst_jupdate (js : Registry) (id : String) (f : Job → Job) :
    (jupdate js id f).map (fun p => p.1) = js.map (fun p => p.1) := by
  induction js with
  | nil => rfl
  | cons p ps ih =>
      by_cases hp : p.1 = id
      · simp [jupdate, hp, ih]
      · simp [jupdate, hp, ih]

theorem keysNodup_jinsert (js : Registry) (id : String) (j : Job)
    (h : (js.map (fun p => p.1)).Nodup) :
    ((jinsert js id j).map (fun p => p.1)).Nodup := by
  induction js with
  | nil => simp [jinsert]
  | cons p ps ih =>
      rw [List.map_cons] at h
      rcases List.nodup_cons.mp h with ⟨hh, ht⟩
      by_cases hp : p.1 = id
      · simp only [jinsert, if_pos hp, List.map_cons]
        exact List.nodup_cons.mpr ⟨hp ▸ hh, ht⟩
      · have hmem : p.1 ∉ (jinsert ps id j).map (fun q => q.1) := by
          intro hm
          rcases List.mem_map.mp hm with ⟨q, hq, hq1⟩
          rcases mem_jinsert ps id j q hq with h' | h'
          · subst h'
            exact hp hq1.symm
          · exact hh (List.mem_map.mpr ⟨q, h', hq1⟩)
        simp only [jinsert, if_neg hp, List.map_cons]
        exact List.nodup_cons.mpr ⟨hmem, ih ht⟩

/-! ## `updateQueuePositions` lemmas -/

theorem jobCore_posJob (i : Nat) (isProc : Bool) (j : Job) :
    jobCore (posJob i isProc j) = jobCore j := rfl

theorem jfind_setPositions_core (isProc : Bool) (q : List String) :
    ∀ (js : Registry) (i : Nat) (id : String),
      (jfind (setPositions isProc js q i) id).map jobCore = (jfind js id).map jobCore := by
  induction q with
  | nil => intro js i id; rfl
  | cons a rest ih =>
      intro js i id
      rw [setPositions, ih]
      by_cases ha : id = a
      · subst ha
        rw [jfind_jupdate_self]
        cases jfind js id with
        | none => rfl
        | some j => simp [jobCore_posJob]
      · rw [jfind_jupdate_ne _ _ _ _ ha]

theorem jfind_setPositions_notMem (isProc : Bool) (q : List String) (id : String)
    (hid : id ∉ q) :
    ∀ (js : Registry) (i : Nat), jfind (setPositions isProc js q i) id = jfind js id := by
  induction q with
  | nil => intro js i; rfl
  | cons a rest ih =>
      intro js i
      have h1 : id ≠ a := fun h => hid (h ▸ List.mem_cons_self _ _)
      have h2 : id ∉ rest := fun h => hid (List.mem_cons_of_mem _ h)
      rw [setPositions, ih h2, jfind_jupdate_ne _ _ _ _ h1]

theorem setPositions_pos (isProc : Bool) (q : List String) (hq : q.Nodup) :
    ∀ (js : Registry) (i0 k : Nat) (hk : k < q.length) (j : Job),
      jfind (setPositions isProc js q i0) (q.get ⟨k, hk⟩) = some j →
      j.queuePosition = i0 + k + 1 := by
  induction q with
  | nil =>
      intro js i0 k hk
      exact absurd hk (by simp)
  | cons a rest ih =>
      intro js i0 k hk j hfind
      rcases List.nodup_cons.mp hq with ⟨hna, hnr⟩
      cases k with
      | zero =>
          have hget : (a :: rest).get ⟨0, hk⟩ = a := rfl
          rw [hget, setPositions, jfind_setPositions_notMem _ _ _ hna] at hfind
          rw [jfind_jupdate_self] at hfind
          cases hjs : jfind js a with
          | none => rw [hjs] at hfind; simp at hfind
          | some j0 =>
              rw [hjs] at hfind
              simp only [Option.map_some'] at hfind
              cases hfind
              simp [posJob]
      | succ k' =>
          have hget : (a :: rest).get ⟨k' + 1, hk⟩
              = rest.get ⟨k', Nat.lt_of_succ_lt_succ hk⟩ := rfl
          rw [hget, setPositions] at hfind
          have := ih hnr (jupdate js a (posJob i0 isProc)) (i0 + 1) k'
            (Nat.lt_of_succ_lt_succ hk) j hfind
          omega

theorem map_fst_setPositions (isProc : Bool) (q : List String) :
    ∀ (js : Registry) (i : Nat),
      (setPositions isProc js q i).map (fun p => p.1) = js.map (fun p => p.1) := by
  induction q with
  | nil => intro js i; rfl
  | cons a rest ih =>
      intro js i
      rw [setPositions, ih, map_fst_jupdate]

theorem mem_setPositions (isProc : Bool) (q : List String) :
    ∀ (js : Registry) (i : Nat) (p : String × Job), p ∈ setPositions isProc js q i →
      ∃ p' ∈ js, p.1 = p'.1 ∧ jobCore p.2 = jobCore p'.2 := by
  induction q with
  | nil =>
      intro js i p hp
      exact ⟨p, hp, rfl, rfl⟩
  | cons a rest ih =>
      intro js i p hp
      rw [setPositions] at hp
      rcases ih _ _ p hp with ⟨p', hp', h1, h2⟩
      rcases mem_jupdate js a (posJob i isProc) p' hp' with ⟨q', hq', hk, hcase⟩
      rcases hcase with ⟨_, hval⟩ | ⟨_, hval⟩
      · exact ⟨q', hq', h1.trans hk, by rw [h2, hval, jobCore_posJob]⟩
      · exact ⟨q', hq', h1.trans hk, by rw [h2, hval]⟩

/-! ## Cancellation-set and cancel-scan lemmas -/

theorem mem_insertC_self (l : List String) (id : String) : id ∈ insertC l id := by
  unfold insertC
  by_cases h : id ∈ l
  · simp [h]
  · simp [h]

theorem mem_insertC_mono (l : List String) (id a : String) (h : a ∈ l) :
    a ∈ insertC l id := by
  unfold insertC
  by_cases hm : id ∈ l
  · simpa [hm]
  · simp [hm, h]

theorem insertC_idem (l : List String) (id : String) (h : id ∈ l) :
    insertC l id = l := by
  simp [insertC, h]

theorem cancelScan_found (id : String) (q : List String) :
    ∀ (i : Nat) (f b : Bool) (acc : List String),
      (cancelScanAux id q i f b acc).1 = (f || decide (id ∈ q)) := by
  induction q with
  | nil => intro i f b acc; simp [cancelScanAux]
  | cons qh rest ih =>
      intro i f b acc
      by_cases h : qh = id
      · simp [cancelScanAux, h, ih]
      · simp [cancelScanAux, h, ih, Ne.symm h]

theorem cancelScan_queue (id : String) (q : List String) :
    ∀ (i : Nat) (f b : Bool) (acc : List String),
      (cancelScanAux id q i f b acc).2.2
        = acc.reverse ++ q.filter (fun x => !(x == id)) := by
  induction q with
  | nil => intro i f b acc; simp [cancelScanAux]
  | cons qh rest ih =>
      intro i f b acc
      by_cases h : qh = id
      · have hb : (qh == id) = true := by simp [h]
        simp [cancelScanAux, h, ih, List.filter_cons, hb]
      · have hb : (qh == id) = false := by simp [h]
        simp [cancelScanAux, h, ih, List.filter_cons, hb]

theorem not_mem_cancel_filter (id : String) (q : List String) :
    id ∉ q.filter (fun x => !(x == id)) := by
  intro h
  have := (List.mem_filter.mp h).2
  simp at this

/-- `CancelJob` on an id absent from the queue: error return, only the
cancellation set changes. -/
theorem cancelJob_not_found (e : Engine) (id : String) (h : id ∉ e.queue) :
    cancelJob e id =
      ({ e with cancelled := insertC e.cancelled id }, some "job not found in queue") := by
  have hf : (cancelScanAux id e.queue 0 false false []).1 = false := by
    rw [cancelScan_found]
    simp [h]
  simp only [cancelJob, hf]
  rfl

/-- `CancelJob` on an id present in the queue: no error; the id is
marked cancelled, every occurrence leaves the queue, the job record is
marked Failed, and positions are recomputed. -/
theorem cancelJob_found (e : Engine) (id : String) (h : id ∈ e.queue) :
    ∃ m : String,
      cancelJob e id =
        (updateQueuePositions
          { e with
            cancelled := insertC e.cancelled id
            queue := e.queue.filter (fun x => !(x == id))
            jobs := jupdate e.jobs id (fun j =>
              { j with status := .failed, error := "Cancelled by user", message := m }) },
         none) := by
  have hf : (cancelScanAux id e.queue 0 false false []).1 = true := by
    rw [cancelScan_found]
    simp [h]
  have hq : (cancelScanAux id e.queue 0 false false []).2.2
      = e.queue.filter (fun x => !(x == id)) := by
    rw [cancelScan_queue]
    rfl
  refine ⟨if (cancelScanAux id e.queue 0 false false []).2.1 && e.isProcessing
      then "Cancelling..." else "Cancelled", ?_⟩
  simp only [cancelJob, hf, if_true, hq]

theorem cancelJob_cancelled (e : Engine) (id : String) :
    (cancelJob e id).1.cancelled = insertC e.cancelled id := by
  by_cases h : id ∈ e.queue
  · rcases cancelJob_found e id h with ⟨m, hm⟩
    rw [hm]
    rfl
  · rw [cancelJob_not_found e id h]

/-! ## Shape of each transition -/

theorem step_create_shape (sf : Rat) (e e' : Engine) (id fn ap lg : String)
    (hs : step sf e (.create id fn ap lg) = some e') : e' = createJob e id fn ap lg := by
  exact (Option.some.inj hs).symm

theorem step_cancel_shape (sf : Rat) (e e' : Engine) (id : String)
    (hs : step sf e (.cancel id) = some e') : e' = (cancelJob e id).1 := by
  exact (Option.some.inj hs).symm

theorem step_killMark_shape (sf : Rat) (e e' : Engine) (id : String)
    (hs : step sf e (.killMark id) = some e') :
    e.killer = none ∧
    e' = { e with cancelled := insertC e.cancelled id, killer := some (.readW id) } := by
  cases hk : e.killer <;> simp only [step, hk] at hs
  · exact ⟨rfl, (Option.some.inj hs).symm⟩
  · exact Option.noConfusion hs

theorem step_killRead_shape (sf : Rat) (e e' : Engine)
    (hs : step sf e .killRead = some e') :
    ∃ id, e.killer = some (.readW id) ∧
      e' = { e with killer := some (.signal id e.workerCmd) } := by
  cases hk : e.killer with
  | none =>
      simp only [step, hk] at hs
      exact Option.noConfusion hs
  | some ph =>
      cases ph with
      | readW id =>
          simp only [step, hk] at hs
          exact ⟨id, rfl, (Option.some.inj hs).symm⟩
      | signal id cmd =>
          simp only [step, hk] at hs
          exact Option.noConfusion hs
      | writeJ id =>
          simp only [step, hk] at hs
          exact Option.noConfusion hs

theorem step_killSignal_shape (sf : Rat) (e e' : Engine)
    (hs : step sf e .killSignal = some e') :
    ∃ id cmd, e.killer = some (.signal id cmd) ∧
      ((e' = { e with killer := some (.writeJ id) } ∧
          (cmd = none ∨ ∃ w, cmd = some w ∧ killFails e w = false)) ∨
       (∃ w, cmd = some w ∧ killFails e w = true ∧ e' = { e with killer := none })) := by
  cases hk : e.killer with
  | none =>
      simp only [step, hk] at hs
      exact Option.noConfusion hs
  | some ph =>
      cases ph with
      | readW id =>
          simp only [step, hk] at hs
          exact Option.noConfusion hs
      | writeJ id =>
          simp only [step, hk] at hs
          exact Option.noConfusion hs
      | signal id cmd =>
          refine ⟨id, cmd, rfl, ?_⟩
          cases cmd with
          | none =>
              simp only [step, hk] at hs
              exact Or.inl ⟨(Option.some.inj hs).symm, Or.inl rfl⟩
          | some w =>
              simp only [step, hk] at hs
              by_cases hf : killFails e w = true
              · rw [if_pos hf] at hs
                exact Or.inr ⟨w, rfl, hf, (Option.some.inj hs).symm⟩
              · rw [if_neg hf] at hs
                exact Or.inl ⟨(Option.some.inj hs).symm, Or.inr ⟨w, rfl, by simpa using hf⟩⟩

theorem step_killWrite_shape (sf : Rat) (e e' : Engine)
    (hs : step sf e .killWrite = some e') :
    ∃ id, e.killer = some (.writeJ id) ∧
      e' = { e with jobs := jupdate e.jobs id killUpd, killer := none } := by
  cases hk : e.killer with
  | none =>
      simp only [step, hk] at hs
      exact Option.noConfusion hs
  | some ph =>
      cases ph with
      | readW id =>
          simp only [step, hk] at hs
          exact Option.noConfusion hs
      | signal id cmd =>
          simp only [step, hk] at hs
          exact Option.noConfusion hs
      | writeJ id =>
          simp only [step, hk] at hs
          exact ⟨id, rfl, (Option.some.inj hs).symm⟩

theorem step_schedTake_shape (sf : Rat) (e e' : Engine)
    (hs : step sf e .schedTake = some e') :
    ∃ id rest, e.spc = .idle ∧ e.queue = id :: rest ∧
      e' = { e with isProcessing := true, spc := .snap id } := by
  cases hspc : e.spc <;> cases hq : e.queue <;> simp only [step, hspc, hq] at hs
  all_goals try exact Option.noConfusion hs
  exact ⟨_, _, rfl, rfl, (Option.some.inj hs).symm⟩

theorem step_schedSnap_shape (sf : Rat) (e e' : Engine)
    (hs : step sf e .schedSnap = some e') :
    ∃ id, e.spc = .snap id ∧
      (e' = { e with spc := .popHead } ∨
       ∃ j, jfind e.jobs id = some j ∧
         e' = { e with spc := .durProbe id j.audioPath j.language }) := by
  cases hspc : e.spc <;> simp only [step, hspc] at hs
  all_goals try exact Option.noConfusion hs
  rename_i id
  refine ⟨id, rfl, ?_⟩
  cases hj : jfind e.jobs id <;> simp only [hj] at hs
  · exact Or.inl (Option.some.inj hs).symm
  · rename_i j
    by_cases hc : j.audioPath = "" ∨ (j.status = .failed ∧ j.error = "Cancelled by user")
    · rw [if_pos hc] at hs
      exact Or.inl (Option.some.inj hs).symm
    · rw [if_neg hc] at hs
      exact Or.inr ⟨j, rfl, (Option.some.inj hs).symm⟩

theorem step_schedDur_shape (sf : Rat) (e e' : Engine) (probe : Option Rat)
    (hs : step sf e (.schedDur probe) = some e') :
    ∃ id ap lg, e.spc = .durProbe id ap lg ∧
      (e' = { e with spc := .finalWrite id durFailArgs } ∨
       ∃ d, probe = some d ∧ e' = { e with spc := .startEst id lg (d / sf) }) := by
  cases hspc : e.spc <;> simp only [step, hspc] at hs
  all_goals try exact Option.noConfusion hs
  rename_i id ap lg
  refine ⟨id, ap, lg, rfl, ?_⟩
  cases probe <;> simp only at hs
  · exact Or.inl (Option.some.inj hs).symm
  · exact Or.inr ⟨_, rfl, (Option.some.inj hs).symm⟩

theorem step_schedStartEst_shape (sf : Rat) (e e' : Engine)
    (hs : step sf e .schedStartEst = some e') :
    ∃ id lg exp, e.spc = .startEst id lg exp ∧
      e' = { e with
        ests := e.ests ++ [⟨id, exp, false, false, none⟩]
        spc := .setWorker id lg e.ests.length } := by
  cases hspc : e.spc <;> simp only [step, hspc] at hs
  all_goals try exact Option.noConfusion hs
  exact ⟨_, _, _, rfl, (Option.some.inj hs).symm⟩

theorem step_schedSetWorker_shape (sf : Rat) (e e' : Engine)
    (hs : step sf e .schedSetWorker = some e') :
    ∃ id lg ei, e.spc = .setWorker id lg ei ∧
      e' = { e with workerCmd := some id, spc := .runWorker id lg ei } := by
  cases hspc : e.spc <;> simp only [step, hspc] at hs
  all_goals try exact Option.noConfusion hs
  exact ⟨_, _, _, rfl, (Option.some.inj hs).symm⟩

theorem step_schedWorkerRet_shape (sf : Rat) (e e' : Engine) (out : WorkerOutcome)
    (hs : step sf e (.schedWorkerRet out) = some e') :
    ∃ id lg ei, e.spc = .runWorker id lg ei ∧
      e' = { e with spc := .clearWorker id lg ei out } := by
  cases hspc : e.spc <;> simp only [step, hspc] at hs
  all_goals try exact Option.noConfusion hs
  exact ⟨_, _, _, rfl, (Option.some.inj hs).symm⟩

theorem step_schedClearWorker_shape (sf : Rat) (e e' : Engine)
    (hs : step sf e .schedClearWorker = some e') :
    ∃ id lg ei out, e.spc = .clearWorker id lg ei out ∧
      e' = { e with workerCmd := none, spc := .closeStop id lg ei out } := by
  cases hspc : e.spc <;> simp only [step, hspc] at hs
  all_goals try exact Option.noConfusion hs
  exact ⟨_, _, _, _, rfl, (Option.some.inj hs).symm⟩

theorem step_schedCloseStop_shape (sf : Rat) (e e' : Engine)
    (hs : step sf e .schedCloseStop = some e') :
    ∃ id lg ei out, e.spc = .closeStop id lg ei out ∧
      e' = { e with
        ests := estModify e.ests ei (fun x => { x with stopped := true })
        spc := .decideOutcome id lg out } := by
  cases hspc : e.spc <;> simp only [step, hspc] at hs
  all_goals try exact Option.noConfusion hs
  exact ⟨_, _, _, _, rfl, (Option.some.inj hs).symm⟩

theorem step_schedDecide_shape (sf : Rat) (e e' : Engine)
    (hs : step sf e .schedDecide = some e') :
    ∃ id lg out, e.spc = .decideOutcome id lg out ∧
      e' = { e with spc := .finalWrite id (outcomeArgs (isCancelled e id) lg out) } := by
  cases hspc : e.spc <;> simp only [step, hspc] at hs
  all_goals try exact Option.noConfusion hs
  exact ⟨_, _, _, rfl, (Option.some.inj hs).symm⟩

theorem step_schedFinalWrite_shape (sf : Rat) (e e' : Engine)
    (hs : step sf e .schedFinalWrite = some e') :
    ∃ id args, e.spc = .finalWrite id args ∧
      e' = { e with jobs := updateJob e.jobs id args, spc := .popHead } := by
  cases hspc : e.spc <;> simp only [step, hspc] at hs
  all_goals try exact Option.noConfusion hs
  exact ⟨_, _, rfl, (Option.some.inj hs).symm⟩

theorem step_schedPop_shape (sf : Rat) (e e' : Engine)
    (hs : step sf e .schedPop = some e') :
    e.spc = .popHead ∧
      e' = { e with queue := e.queue.drop 1, isProcessing := false, spc := .repos } := by
  cases hspc : e.spc <;> simp only [step, hspc] at hs
  all_goals try exact Option.noConfusion hs
  exact ⟨rfl, (Option.some.inj hs).symm⟩

theorem step_schedRepos_shape (sf : Rat) (e e' : Engine)
    (hs : step sf e .schedRepos = some e') :
    e.spc = .repos ∧ e' = { updateQueuePositions e with spc := .idle } := by
  cases hspc : e.spc <;> simp only [step, hspc] at hs
  all_goals try exact Option.noConfusion hs
  exact ⟨rfl, (Option.some.inj hs).symm⟩

theorem step_estTick_shape (sf : Rat) (e e' : Engine) (i : Nat) (elapsed : Rat)
    (hs : step sf e (.estTick i elapsed) = some e') :
    ∃ est, e.ests.get? i = some est ∧ est.done = false ∧ est.pending = none ∧
      ((isCancelled e est.job = true ∧
          e' = { e with ests := estModify e.ests i (fun x => { x with done := true }) }) ∨
       (isCancelled e est.job = false ∧
          e' = { e with ests := estModify e.ests i (fun x => { x with pending := some elapsed }) })) := by
  cases hj : e.ests.get? i <;> simp only [step, hj] at hs
  · exact Option.noConfusion hs
  · rename_i est
    by_cases hg : (est.done || est.pending.isSome || decide (elapsed < 0)) = true
    · rw [if_pos hg] at hs
      exact Option.noConfusion hs
    · rw [if_neg hg] at hs
      simp only [Bool.or_eq_true, decide_eq_true_eq, not_or, Bool.not_eq_true] at hg
      obtain ⟨⟨hd, hp⟩, _⟩ := hg
      have hpn : est.pending = none := by
        cases hpp : est.pending with
        | none => rfl
        | some v => rw [hpp] at hp; simp at hp
      refine ⟨est, rfl, hd, hpn, ?_⟩
      by_cases hc : isCancelled e est.job = true
      · rw [if_pos hc] at hs
        exact Or.inl ⟨hc, (Option.some.inj hs).symm⟩
      · rw [if_neg hc] at hs
        exact Or.inr ⟨by simpa using hc, (Option.some.inj hs).symm⟩

theorem step_estWrite_shape (sf : Rat) (e e' : Engine) (i : Nat)
    (hs : step sf e (.estWrite i) = some e') :
    ∃ est el, e.ests.get? i = some est ∧ est.pending = some el ∧ est.done = false ∧
      e' = { e with
        jobs := updateJob e.jobs est.job (estArgs el est.expectedTime)
        ests := estModify e.ests i (fun x => { x with pending := none }) } := by
  cases hj : e.ests.get? i <;> simp only [step, hj] at hs
  · exact Option.noConfusion hs
  · rename_i est
    cases hp : est.pending <;> simp only [hp] at hs
    · exact Option.noConfusion hs
    · rename_i el
      by_cases hd : est.done = true
      · rw [if_pos hd] at hs
        exact Option.noConfusion hs
      · rw [if_neg hd] at hs
        exact ⟨est, el, rfl, hp, by simpa using hd, (Option.some.inj hs).symm⟩

theorem step_estStop_shape (sf : Rat) (e e' : Engine) (i : Nat)
    (hs : step sf e (.estStop i) = some e') :
    ∃ est, e.ests.get? i = some est ∧ est.stopped = true ∧
      e' = { e with ests := estModify e.ests i (fun x => { x with done := true }) } := by
  cases hj : e.ests.get? i <;> simp only [step, hj] at hs
  · exact Option.noConfusion hs
  · rename_i est
    by_cases hg : (est.stopped && !est.done && est.pending.isNone) = true
    · rw [if_pos hg] at hs
      simp only [Bool.and_eq_true] at hg
      exact ⟨est, rfl, hg.1.1, (Option.some.inj hs).symm⟩
    · rw [if_neg hg] at hs
      exact Option.noConfusion hs

/-! ## Claim theorems -/

/-- C2.  The source's own locking rule (comment on line 228 of
transcription.go: registry lock before queue lock) is respected by
every engine operation except `GetQueue`, which acquires `queueMutex`
and then, while holding it, `jobsMutex.RLock` — the reverse order,
which can deadlock against `updateQueuePositions`.  The claim that no
operation ever takes the queue lock first is therefore violated by the
code at `GetQueue`. -/
theorem c2_lock_order :
    registryFirst updateQueuePositionsLocks false = true ∧
    registryFirst createJobLocks false = true ∧
    registryFirst getJobLocks false = true ∧
    registryFirst processQueueIterLocks false = true ∧
    registryFirst cancelJobLocks false = true ∧
    registryFirst killJobLocks false = true ∧
    registryFirst clearCompletedLocks false = true ∧
    registryFirst clearAllLocks false = true ∧
    registryFirst getQueueLocks false = false := by
  decide

/-- C5 (amended).  `CreateJob` on an id that already exists does not
fail (there is no error path in the source): it overwrites the existing
record with a fresh Queued record and appends the id to the pending
queue again. -/
theorem c5_create_overwrites (e : Engine) (id fileName audioPath language : String) :
    (createJob e id fileName audioPath language).queue = e.queue ++ [id] ∧
    ((jfind (createJob e id fileName audioPath language).jobs id).map jobCore)
      = some (jobCore (freshJob id fileName audioPath language)) := by
  constructor
  · rfl
  · unfold createJob updateQueuePositions
    rw [jfind_setPositions_core]
    rw [jfind_jinsert_self]
    rfl

/-- C5 counterexample: submitting id "A" twice succeeds; the second
submission replaces the record (fileName changes from "f1" to "f2",
status back to Queued) and the queue gains a duplicate entry, so the
claimed "fails and leaves the existing job record and the pending queue
unchanged" is false. -/
theorem c5_duplicate_create_cex :
    ((jfind c5CexEngineB.jobs "A").map (fun j => j.fileName) = some "f2") ∧
    ((jfind c5CexEngineA.jobs "A").map (fun j => j.fileName) = some "f1") ∧
    c5CexEngineB.queue = ["A", "A"] ∧
    c5CexEngineA.queue = ["A"] ∧
    ((jfind c5CexEngineB.jobs "A").map (fun j => j.status) = some .queued) := by
  decide

theorem posConsistent_uqp (e : Engine) (h : e.queue.Nodup) :
    posConsistent (updateQueuePositions e) := by
  intro k hk j hfind
  have := setPositions_pos e.isProcessing e.queue h e.jobs 0 k hk j hfind
  omega

theorem isCancelled_of_mem (e : Engine) (id : String) (h : id ∈ e.cancelled) :
    isCancelled e id = true := by
  simp only [isCancelled, List.contains, List.elem_iff]
  exact h

theorem step_cancelled (sf : Rat) (e : Engine) (l : Label) (e' : Engine)
    (hs : step sf e l = some e') :
    e'.cancelled = e.cancelled ∨ ∃ x, e'.cancelled = insertC e.cancelled x := by
  cases l with
  | create id fn ap lg =>
      rw [step_create_shape sf e e' id fn ap lg hs]
      exact Or.inl rfl
  | cancel id =>
      rw [step_cancel_shape sf e e' id hs]
      exact Or.inr ⟨id, cancelJob_cancelled e id⟩
  | killMark id =>
      rcases step_killMark_shape sf e e' id hs with ⟨_, he'⟩
      subst he'
      exact Or.inr ⟨id, rfl⟩
  | killRead =>
      rcases step_killRead_shape sf e e' hs with ⟨_, _, he'⟩
      subst he'
      exact Or.inl rfl
  | killSignal =>
      rcases step_killSignal_shape sf e e' hs with ⟨_, _, _, h2⟩
      rcases h2 with ⟨he', _⟩ | ⟨_, _, _, he'⟩ <;> subst he' <;> exact Or.inl rfl
  | killWrite =>
      rcases step_killWrite_shape sf e e' hs with ⟨_, _, he'⟩
      subst he'
      exact Or.inl rfl
  | schedTake =>
      rcases step_schedTake_shape sf e e' hs with ⟨_, _, _, _, he'⟩
      subst he'
      exact Or.inl rfl
  | schedSnap =>
      rcases step_schedSnap_shape sf e e' hs with ⟨_, _, h2⟩
      rcases h2 with he' | ⟨_, _, he'⟩ <;> subst he' <;> exact Or.inl rfl
  | schedDur probe =>
      rcases step_schedDur_shape sf e e' probe hs with ⟨_, _, _, _, h2⟩
      rcases h2 with he' | ⟨_, _, he'⟩ <;> subst he' <;> exact Or.inl rfl
  | schedStartEst =>
      rcases step_schedStartEst_shape sf e e' hs with ⟨_, _, _, _, he'⟩
      subst he'
      exact Or.inl rfl
  | schedSetWorker =>
      rcases step_schedSetWorker_shape sf e e' hs with ⟨_, _, _, _, he'⟩
      subst he'
      exact Or.inl rfl
  | schedWorkerRet out =>
      rcases step_schedWorkerRet_shape sf e e' out hs with ⟨_, _, _, _, he'⟩
      subst he'
      exact Or.inl rfl
  | schedClearWorker =>
      rcases step_schedClearWorker_shape sf e e' hs with ⟨_, _, _, _, _, he'⟩
      subst he'
      exact Or.inl rfl
  | schedCloseStop =>
      rcases step_schedCloseStop_shape sf e e' hs with ⟨_, _, _, _, _, he'⟩
      subst he'
      exact Or.inl rfl
  | schedDecide =>
      rcases step_schedDecide_shape sf e e' hs with ⟨_, _, _, _, he'⟩
      subst he'
      exact Or.inl rfl
  | schedFinalWrite =>
      rcases step_schedFinalWrite_shape sf e e' hs with ⟨_, _, _, he'⟩
      subst he'
      exact Or.inl rfl
  | schedPop =>
      rcases step_schedPop_shape sf e e' hs with ⟨_, he'⟩
      subst he'
      exact Or.inl rfl
  | schedRepos =>
      rcases step_schedRepos_shape sf e e' hs with ⟨_, he'⟩
      subst he'
      exact Or.inl rfl
  | estTick i el =>
      rcases step_estTick_shape sf e e' i el hs with ⟨_, _, _, _, h2⟩
      rcases h2 with ⟨_, he'⟩ | ⟨_, he'⟩ <;> subst he' <;> exact Or.inl rfl
  | estWrite i =>
      rcases step_estWrite_shape sf e e' i hs with ⟨_, _, _, _, _, he'⟩
      subst he'
      exact Or.inl rfl
  | estStop i =>
      rcases step_estStop_shape sf e e' i hs with ⟨_, _, _, he'⟩
      subst he'
      exact Or.inl rfl

theorem step_cancelled_mono (sf : Rat) (e : Engine) (l : Label) (e' : Engine)
    (id : String) (hs : step sf e l = some e') (hm : id ∈ e.cancelled) :
    id ∈ e'.cancelled := by
  rcases step_cancelled sf e l e' hs with h | ⟨x, h⟩ <;> rw [h]
  · exact hm
  · exact mem_insertC_mono _ _ _ hm

/-- C6 (amended).  After a submission, after a cancellation that found
its job in the queue, and after the scheduler's position recompute,
every job still in the pending sequence has `queuePosition` equal to
its 1-based index (assuming the queue holds distinct ids, which the
engine's uuid ids guarantee).  Jobs that leave the pending sequence,
however, keep their last assigned position instead of being reset
to 0. -/
theorem c6_positions (sf : Rat) (e : Engine) (id fileName audioPath language : String) :
    ((e.queue ++ [id]).Nodup → posConsistent (createJob e id fileName audioPath language)) ∧
    (e.queue.Nodup → id ∈ e.queue → posConsistent (cancelJob e id).1) ∧
    (e.spc = .repos → e.queue.Nodup → ∀ e', step sf e .schedRepos = some e' → posConsistent e') := by
  refine ⟨?_, ?_, ?_⟩
  · intro h
    exact posConsistent_uqp
      { e with
        jobs := jinsert e.jobs id (freshJob id fileName audioPath language)
        queue := e.queue ++ [id] } h
  · intro hnd hmem
    rcases cancelJob_found e id hmem with ⟨m, hm⟩
    rw [hm]
    exact posConsistent_uqp _ (hnd.filter _)
  · intro _ hnd e' hs
    rcases step_schedRepos_shape sf e e' hs with ⟨_, he'⟩
    subst he'
    intro k hk j hfind
    exact posConsistent_uqp e hnd k hk j hfind

/-- C6 counterexample: submit A, cancel A.  A is no longer in the
pending sequence (the queue is empty) yet its `queuePosition` is still
1, not 0: `updateQueuePositions` never resets positions of jobs that
leave the queue. -/
theorem c6_stale_position_cex :
    c6CexEngine.queue = [] ∧
    ((jfind c6CexEngine.jobs "A").map (fun j => j.queuePosition)) = some 1 := by
  decide

theorem c6_positions_witness :
    posConsistent (createJob initEngine "A" "a.mp3" "/tmp/a" "en") ∧
    posConsistent (cancelJob c6WitnessEngine "A").1 ∧
    posConsistent c6ReposEngine2 := by
  refine ⟨(c6_positions (3/2) initEngine "A" "a.mp3" "/tmp/a" "en").1 (by decide),
    (c6_positions (3/2) c6WitnessEngine "A" "x" "x" "x").2.1 (by decide) (by decide),
    (c6_positions (3/2) c6ReposEngine "A" "x" "x" "x").2.2 rfl (by decide) c6ReposEngine2 rfl⟩

/-- C9.  `CancelJob` on an id that is not in the pending queue returns
the "job not found in queue" error, yet its very first action already
marked the id cancelled: the error path does not leave the engine
unchanged — the only change is the cancellation mark, `IsCancelled`
reports true afterwards, and no later step ever removes the mark. -/
theorem c9_cancel_error_marks (e : Engine) (id : String) (h : id ∉ e.queue) :
    (cancelJob e id).2 = some "job not found in queue" ∧
    (cancelJob e id).1 = { e with cancelled := insertC e.cancelled id } ∧
    isCancelled (cancelJob e id).1 id = true ∧
    ∀ sf l e', step sf (cancelJob e id).1 l = some e' → id ∈ e'.cancelled := by
  refine ⟨?_, ?_, ?_, ?_⟩
  · rw [cancelJob_not_found e id h]
  · rw [cancelJob_not_found e id h]
  · refine isCancelled_of_mem _ _ ?_
    rw [cancelJob_cancelled]
    exact mem_insertC_self _ _
  · intro sf l e' hs
    refine step_cancelled_mono sf _ l e' id hs ?_
    rw [cancelJob_cancelled]
    exact mem_insertC_self _ _

theorem c9_witness :
    (cancelJob initEngine "A").2 = some "job not found in queue" ∧
    isCancelled (cancelJob initEngine "A").1 "A" = true := by
  have h := c9_cancel_error_marks initEngine "A" (by decide)
  exact ⟨h.1, h.2.2.1⟩

/-- C10 (amended).  `KillJob` never checks that the named id is the
active job.  Its cancel mark and handle snapshot are independent of
`id`: the mark always succeeds, touches no job record and leaves the
handle alone, and the snapshot is whatever handle is stored.  With no
handle the signal is skipped; when the signal is skipped or succeeds,
the registry write then sets the named job Failed/"Killed by user"
exactly when it exists and the call returns nil.  But when the
snapshot names an already-reaped process, `Process.Kill` fails and the
call returns the kill error without performing the registry write. -/
theorem c10_kill_unchecked (sf : Rat) (e : Engine) (id : String) :
    (∀ e', step sf e (.killMark id) = some e' →
       e'.workerCmd = e.workerCmd ∧ isCancelled e' id = true ∧ e'.jobs = e.jobs) ∧
    (∀ id0 e', e.killer = some (.readW id0) → step sf e .killRead = some e' →
       e'.killer = some (.signal id0 e.workerCmd)) ∧
    (∀ id0 e', e.killer = some (.signal id0 none) → step sf e .killSignal = some e' →
       e' = { e with killer := some (.writeJ id0) } ∧ killRet e .killSignal = none) ∧
    (∀ id0 w, e.killer = some (.signal id0 (some w)) → killFails e w = true →
       step sf e .killSignal = some { e with killer := none } ∧
       killRet e .killSignal = some (some killFailMsg)) ∧
    (∀ id0 e', e.killer = some (.writeJ id0) → step sf e .killWrite = some e' →
       killRet e .killWrite = some none ∧
       (∀ j, jfind e.jobs id0 = some j → jfind e'.jobs id0 = some (killUpd j)) ∧
       (jfind e.jobs id0 = none → e'.jobs = e.jobs)) := by
  refine ⟨?_, ?_, ?_, ?_, ?_⟩
  · intro e' hs
    rcases step_killMark_shape sf e e' id hs with ⟨_, he'⟩
    subst he'
    exact ⟨rfl, isCancelled_of_mem _ _ (mem_insertC_self _ _), rfl⟩
  · intro id0 e' hk hs
    rcases step_killRead_shape sf e e' hs with ⟨id1, hk1, he'⟩
    rw [hk] at hk1
    injection hk1 with hx
    injection hx with hx2
    subst hx2
    subst he'
    rfl
  · intro id0 e' hk hs
    rcases step_killSignal_shape sf e e' hs with ⟨id1, cmd, hk1, hbr⟩
    rw [hk] at hk1
    injection hk1 with hx
    injection hx with hxa hxb
    subst hxa
    subst hxb
    constructor
    · rcases hbr with ⟨he', _⟩ | ⟨w, hw, _, _⟩
      · exact he'
      · exact Option.noConfusion hw
    · simp only [killRet, hk]
  · intro id0 w hk hf
    constructor
    · simp only [step, hk]
      rw [if_pos hf]
    · simp only [killRet, hk]
      rw [if_pos hf]
  · intro id0 e' hk hs
    rcases step_killWrite_shape sf e e' hs with ⟨id1, hk1, he'⟩
    rw [hk] at hk1
    injection hk1 with hx
    injection hx with hx2
    subst hx2
    subst he'
    refine ⟨?_, ?_, ?_⟩
    · simp only [killRet, hk]
    · intro j hj
      show jfind (jupdate e.jobs id0 killUpd) id0 = some (killUpd j)
      rw [jfind_jupdate_self, hj]
      rfl
    · intro hj
      show jupdate e.jobs id0 killUpd = e.jobs
      exact jupdate_of_find_none _ _ _ hj

/-- C10 counterexample: job "A" exists (status still Queued) and the
worker handle names a process that has already been reaped — the
worker returned on its own and the scheduler has not yet cleared the
handle, an interleaving the code permits.  `KillJob "A"` reads the
stale handle, its `Process.Kill` fails (line 767), and the call
returns the error before the registry write (lines 774-780) is ever
reached: the named job is NOT set to Failed and the call does not
succeed, refuting the claim's "sets the named job's status to Failed
if that ID exists" and "the call still succeeds". -/
theorem c10_kill_error_cex :
    Reach (3/2) c10CexEngine ∧
    ((jfind c10CexEngine.jobs "A").map (fun j => j.status) = some .queued) ∧
    c10CexEngine.killer = some (.signal "A" (some "A")) ∧
    killRet c10CexEngine .killSignal = some (some killFailMsg) ∧
    step (3/2) c10CexEngine .killSignal = some c10CexEngine2 ∧
    c10CexEngine2.killer = none ∧
    ((jfind c10CexEngine2.jobs "A").map (fun j => j.status) = some .queued) :=
  ⟨⟨c10CexTrace, rfl⟩, rfl, rfl, rfl, rfl, rfl, rfl⟩

theorem c10_witness :
    c10KMark.workerCmd = c10KStart.workerCmd ∧
    isCancelled c10KMark "K" = true ∧
    killRet c10KWrite .killWrite = some none ∧
    jfind c10KDone.jobs "K" = some (killUpd c10KJob) := by
  have h1 := (c10_kill_unchecked (3/2) c10KStart "K").1 c10KMark rfl
  have h5 := (c10_kill_unchecked (3/2) c10KWrite "K").2.2.2.2 "K" c10KDone rfl rfl
  exact ⟨h1.1, h1.2.1, h5.1, h5.2.1 c10KJob rfl⟩

/-- A complete `KillJob` run (all four sections back to back) requires
no session in flight and performs exactly the cancel mark and the
registry write; reaching the final section forces the `Process.Kill`
attempt not to have failed (the error return ends the call early). -/
theorem killSeq_shape (sf : Rat) (e e4 : Engine) (id : String)
    (h : runFrom sf e (killSeq id) = some e4) :
    e.killer = none ∧
    e4 = { e with
      cancelled := insertC e.cancelled id
      jobs := jupdate e.jobs id killUpd
      killer := none } := by
  rw [killSeq, runFrom] at h
  cases h1 : step sf e (.killMark id) with
  | none =>
      rw [h1] at h
      exact Option.noConfusion h
  | some e1 =>
      rw [h1] at h
      replace h : runFrom sf e1 [.killRead, .killSignal, .killWrite] = some e4 := h
      rcases step_killMark_shape sf e e1 id h1 with ⟨hk0, he1⟩
      rw [runFrom] at h
      cases h2 : step sf e1 .killRead with
      | none =>
          rw [h2] at h
          exact Option.noConfusion h
      | some e2 =>
          rw [h2] at h
          replace h : runFrom sf e2 [.killSignal, .killWrite] = some e4 := h
          rcases step_killRead_shape sf e1 e2 h2 with ⟨id1, hk1, he2⟩
          have hk1e : e1.killer = some (KillPhase.readW id) := by rw [he1]
          have hx1 : some (KillPhase.readW id) = some (KillPhase.readW id1) :=
            hk1e.symm.trans hk1
          injection hx1 with hx1'
          injection hx1' with hx1b
          subst hx1b
          rw [runFrom] at h
          cases h3 : step sf e2 .killSignal with
          | none =>
              rw [h3] at h
              exact Option.noConfusion h
          | some e3 =>
              rw [h3] at h
              replace h : runFrom sf e3 [.killWrite] = some e4 := h
              rcases step_killSignal_shape sf e2 e3 h3 with ⟨id2, cmd, hk2, hbr⟩
              have hk2e : e2.killer = some (KillPhase.signal id e1.workerCmd) := by rw [he2]
              have hx2 : some (KillPhase.signal id e1.workerCmd)
                  = some (KillPhase.signal id2 cmd) := hk2e.symm.trans hk2
              injection hx2 with hx2'
              injection hx2' with hx2a hx2b
              subst hx2a
              subst hx2b
              rw [runFrom] at h
              rcases hbr with ⟨he3, _⟩ | ⟨w, hw, hf, he3⟩
              · cases h4 : step sf e3 .killWrite with
                | none =>
                    rw [h4] at h
                    exact Option.noConfusion h
                | some e5 =>
                    rw [h4] at h
                    replace h : runFrom sf e5 [] = some e4 := h
                    rcases step_killWrite_shape sf e3 e5 h4 with ⟨id3, hk3, he5⟩
                    have hk3e : e3.killer = some (KillPhase.writeJ id) := by rw [he3]
                    have hx3 : some (KillPhase.writeJ id) = some (KillPhase.writeJ id3) :=
                      hk3e.symm.trans hk3
                    injection hx3 with hx3'
                    injection hx3' with hx3b
                    subst hx3b
                    have he4 : e4 = e5 := (Option.some.inj h).symm
                    refine ⟨hk0, ?_⟩
                    rw [he4, he5, he3, he2, he1]
              · cases h4 : step sf e3 .killWrite with
                | none =>
                    rw [h4] at h
                    exact Option.noConfusion h
                | some e5 =>
                    rcases step_killWrite_shape sf e3 e5 h4 with ⟨id3, hk3, _⟩
                    have hk3e : e3.killer = none := by rw [he3]
                    rw [hk3e] at hk3
                    exact Option.noConfusion hk3

/-- C8 (amended).  Cancellation is idempotent: the second cancel finds
the id gone from the queue (its first run removed every occurrence and
permanently marked the id cancelled), reports "job not found in queue"
— the allowed not-found report — and changes nothing.  A second
complete kill repeats the same absolute writes and leaves the state
identical; but a second kill whose `Process.Kill` attempt fails (a
handle naming an already-reaped process) returns a "failed to kill
worker process" error instead, which is not an already-terminal or
not-found report (see the counterexample). -/
theorem c8_cancel_kill_idempotent (sf : Rat) (e : Engine) (id : String) :
    (cancelJob (cancelJob e id).1 id).1 = (cancelJob e id).1 ∧
    (cancelJob (cancelJob e id).1 id).2 = some "job not found in queue" ∧
    (∀ e1 e2, runFrom sf e (killSeq id) = some e1 →
      runFrom sf e1 (killSeq id) = some e2 → e2 = e1) := by
  have hq2 : id ∉ (cancelJob e id).1.queue := by
    by_cases h : id ∈ e.queue
    · rcases cancelJob_found e id h with ⟨m, hm⟩
      rw [hm]
      exact not_mem_cancel_filter id e.queue
    · rw [cancelJob_not_found e id h]
      exact h
  have hcanc : id ∈ (cancelJob e id).1.cancelled := by
    rw [cancelJob_cancelled]
    exact mem_insertC_self _ _
  refine ⟨?_, ?_, ?_⟩
  · rw [cancelJob_not_found _ id hq2]
    show ({ (cancelJob e id).1 with
        cancelled := insertC (cancelJob e id).1.cancelled id }) = (cancelJob e id).1
    rw [insertC_idem _ _ hcanc]
  · rw [cancelJob_not_found _ id hq2]
  · intro e1 e2 h1 h2
    rcases killSeq_shape sf e e1 id h1 with ⟨_, he1⟩
    rcases killSeq_shape sf e1 e2 id h2 with ⟨_, he2⟩
    subst he1
    subst he2
    have hc1 : insertC (insertC e.cancelled id) id = insertC e.cancelled id :=
      insertC_idem _ _ (mem_insertC_self _ _)
    have hj1 : jupdate (jupdate e.jobs id killUpd) id killUpd = jupdate e.jobs id killUpd := by
      rw [jupdate_jupdate]
      rfl
    show ({ e with
        cancelled := insertC (insertC e.cancelled id) id
        jobs := jupdate (jupdate e.jobs id killUpd) id killUpd
        killer := none })
      = { e with
        cancelled := insertC e.cancelled id
        jobs := jupdate e.jobs id killUpd
        killer := none }
    rw [hc1, hj1]

/-- C8 counterexample: a first kill of the active job A completes (A
is Failed/"Killed by user"); the worker then returns and its process
is reaped while the handle is still stored.  A second `KillJob "A"`
reads the stale handle and its `Process.Kill` fails: the call returns
"failed to kill worker process: os: process already finished" — an
error that is neither an already-terminal nor a not-found report —
refuting the claim that the second call produces no other error. -/
theorem c8_second_kill_error_cex :
    Reach (3/2) c8CexEngine ∧
    ((jfind c8CexEngine.jobs "A").map (fun j => (j.status, j.error))
      = some (.failed, "Killed by user")) ∧
    killRet c8CexEngine .killSignal = some (some killFailMsg) ∧
    killFailMsg = "failed to kill worker process: os: process already finished" ∧
    step (3/2) c8CexEngine .killSignal = some { c8CexEngine with killer := none } :=
  ⟨⟨c8CexTrace, rfl⟩, rfl, rfl, rfl, rfl⟩

theorem c8_idem_witness :
    (cancelJob (cancelJob initEngine "A").1 "A").2 = some "job not found in queue" ∧
    c8KillEngine2 = c8KillEngine1 := by
  have h := c8_cancel_kill_idempotent (3/2) initEngine "A"
  exact ⟨h.2.1, h.2.2 c8KillEngine1 c8KillEngine2 rfl rfl⟩

/-! ## Invariant that holds on all executions (stale estimator steps
included): worker-handle correspondence and scheduler write arguments -/

theorem cancelJob_workerCmd (e : Engine) (id : String) :
    (cancelJob e id).1.workerCmd = e.workerCmd := by
  by_cases h : id ∈ e.queue
  · rcases cancelJob_found e id h with ⟨m, hm⟩
    rw [hm]
    rfl
  · rw [cancelJob_not_found e id h]

theorem cancelJob_spc (e : Engine) (id : String) :
    (cancelJob e id).1.spc = e.spc := by
  by_cases h : id ∈ e.queue
  · rcases cancelJob_found e id h with ⟨m, hm⟩
    rw [hm]
    rfl
  · rw [cancelJob_not_found e id h]

theorem cancelJob_ests (e : Engine) (id : String) :
    (cancelJob e id).1.ests = e.ests := by
  by_cases h : id ∈ e.queue
  · rcases cancelJob_found e id h with ⟨m, hm⟩
    rw [hm]
    rfl
  · rw [cancelJob_not_found e id h]

theorem outcomeArgs_terminal (c : Bool) (lg : String) (out : WorkerOutcome) :
    (outcomeArgs c lg out).status = .failed ∨ (outcomeArgs c lg out).status = .completed := by
  cases c
  · cases out with
    | runErr m => exact Or.inl rfl
    | output p =>
        cases p with
        | none => exact Or.inl rfl
        | some r =>
            by_cases hr : r.success = true
            · simp [outcomeArgs, hr, completedArgs]
            · simp [outcomeArgs, hr, respFailArgs]
  · exact Or.inl rfl

theorem outcomeArgs_progress_100 (c : Bool) (lg : String) (out : WorkerOutcome)
    (h : (outcomeArgs c lg out).progress = 100) :
    (outcomeArgs c lg out).status = .completed := by
  cases c
  · cases out with
    | runErr m => exact absurd h (by norm_num [outcomeArgs, workerFailArgs])
    | output p =>
        cases p with
        | none => exact absurd h (by norm_num [outcomeArgs, parseFailArgs])
        | some r =>
            by_cases hr : r.success = true
            · simp [outcomeArgs, hr, completedArgs]
            · exact absurd h (by norm_num [outcomeArgs, hr, respFailArgs])
  · exact absurd h (by norm_num [outcomeArgs, cancelArgs])

theorem invW_init : InvW initEngine := by
  refine ⟨rfl, ?_⟩
  intro id args h
  exact SPC.noConfusion h

theorem invW_step (sf : Rat) (e : Engine) (l : Label) (e' : Engine)
    (hi : InvW e) (hs : step sf e l = some e') : InvW e' := by
  cases l with
  | create id fn ap lg =>
      rw [step_create_shape sf e e' id fn ap lg hs]
      exact ⟨hi.worker, hi.argsOK⟩
  | cancel id =>
      rw [step_cancel_shape sf e e' id hs]
      refine ⟨?_, ?_⟩
      · rw [cancelJob_workerCmd, cancelJob_spc]
        exact hi.worker
      · intro id' args h
        rw [cancelJob_spc] at h
        exact hi.argsOK id' args h
  | killMark id =>
      rcases step_killMark_shape sf e e' id hs with ⟨_, he'⟩
      subst he'
      exact ⟨hi.worker, hi.argsOK⟩
  | killRead =>
      rcases step_killRead_shape sf e e' hs with ⟨_, _, he'⟩
      subst he'
      exact ⟨hi.worker, hi.argsOK⟩
  | killSignal =>
      rcases step_killSignal_shape sf e e' hs with ⟨_, _, _, h2⟩
      rcases h2 with ⟨he', _⟩ | ⟨_, _, _, he'⟩ <;> subst he' <;> exact ⟨hi.worker, hi.argsOK⟩
  | killWrite =>
      rcases step_killWrite_shape sf e e' hs with ⟨_, _, he'⟩
      subst he'
      exact ⟨hi.worker, hi.argsOK⟩
  | schedTake =>
      rcases step_schedTake_shape sf e e' hs with ⟨id, rest, hspc, hq, he'⟩
      subst he'
      refine ⟨?_, fun id' args h => SPC.noConfusion h⟩
      show e.workerCmd = spcWorker (.snap id)
      rw [hi.worker, hspc]
      rfl
  | schedSnap =>
      rcases step_schedSnap_shape sf e e' hs with ⟨id, hspc, h2⟩
      rcases h2 with he' | ⟨j, _, he'⟩ <;> subst he' <;>
        refine ⟨?_, fun id' args h => SPC.noConfusion h⟩ <;>
        · show e.workerCmd = _
          rw [hi.worker, hspc]
          rfl
  | schedDur probe =>
      rcases step_schedDur_shape sf e e' probe hs with ⟨id, ap, lg, hspc, h2⟩
      rcases h2 with he' | ⟨d, _, he'⟩ <;> subst he'
      · refine ⟨?_, ?_⟩
        · show e.workerCmd = _
          rw [hi.worker, hspc]
          rfl
        · intro id' args h
          have h3 : SPC.finalWrite id durFailArgs = SPC.finalWrite id' args := h
          injection h3 with a b
          subst b
          intro hp
          exact absurd hp (by norm_num [durFailArgs])
      · refine ⟨?_, fun id' args h => SPC.noConfusion h⟩
        show e.workerCmd = _
        rw [hi.worker, hspc]
        rfl
  | schedStartEst =>
      rcases step_schedStartEst_shape sf e e' hs with ⟨id, lg, exp, hspc, he'⟩
      subst he'
      refine ⟨?_, fun id' args h => SPC.noConfusion h⟩
      show e.workerCmd = _
      rw [hi.worker, hspc]
      rfl
  | schedSetWorker =>
      rcases step_schedSetWorker_shape sf e e' hs with ⟨id, lg, ei, hspc, he'⟩
      subst he'
      exact ⟨rfl, fun id' args h => SPC.noConfusion h⟩
  | schedWorkerRet out =>
      rcases step_schedWorkerRet_shape sf e e' out hs with ⟨id, lg, ei, hspc, he'⟩
      subst he'
      refine ⟨?_, fun id' args h => SPC.noConfusion h⟩
      show e.workerCmd = some id
      rw [hi.worker, hspc]
      rfl
  | schedClearWorker =>
      rcases step_schedClearWorker_shape sf e e' hs with ⟨id, lg, ei, out, hspc, he'⟩
      subst he'
      exact ⟨rfl, fun id' args h => SPC.noConfusion h⟩
  | schedCloseStop =>
      rcases step_schedCloseStop_shape sf e e' hs with ⟨id, lg, ei, out, hspc, he'⟩
      subst he'
      refine ⟨?_, fun id' args h => SPC.noConfusion h⟩
      show e.workerCmd = _
      rw [hi.worker, hspc]
      rfl
  | schedDecide =>
      rcases step_schedDecide_shape sf e e' hs with ⟨id, lg, out, hspc, he'⟩
      subst he'
      refine ⟨?_, ?_⟩
      · show e.workerCmd = _
        rw [hi.worker, hspc]
        rfl
      · intro id' args h
        have h3 : SPC.finalWrite id (outcomeArgs (isCancelled e id) lg out)
            = SPC.finalWrite id' args := h
        injection h3 with a b
        subst b
        exact outcomeArgs_progress_100 _ _ _
  | schedFinalWrite =>
      rcases step_schedFinalWrite_shape sf e e' hs with ⟨id, args, hspc, he'⟩
      subst he'
      refine ⟨?_, fun id' args' h => SPC.noConfusion h⟩
      show e.workerCmd = _
      rw [hi.worker, hspc]
      rfl
  | schedPop =>
      rcases step_schedPop_shape sf e e' hs with ⟨hspc, he'⟩
      subst he'
      refine ⟨?_, fun id' args h => SPC.noConfusion h⟩
      show e.workerCmd = _
      rw [hi.worker, hspc]
      rfl
  | schedRepos =>
      rcases step_schedRepos_shape sf e e' hs with ⟨hspc, he'⟩
      subst he'
      refine ⟨?_, fun id' args h => SPC.noConfusion h⟩
      show e.workerCmd = _
      rw [hi.worker, hspc]
      rfl
  | estTick i el =>
      rcases step_estTick_shape sf e e' i el hs with ⟨est, _, _, _, h2⟩
      rcases h2 with ⟨_, he'⟩ | ⟨_, he'⟩ <;> subst he' <;> exact ⟨hi.worker, hi.argsOK⟩
  | estWrite i =>
      rcases step_estWrite_shape sf e e' i hs with ⟨est, el, _, _, _, he'⟩
      subst he'
      exact ⟨hi.worker, hi.argsOK⟩
  | estStop i =>
      rcases step_estStop_shape sf e e' i hs with ⟨est, _, _, he'⟩
      subst he'
      exact ⟨hi.worker, hi.argsOK⟩

theorem invW_run (sf : Rat) (ls : List Label) :
    ∀ (e0 e : Engine), InvW e0 → runFrom sf e0 ls = some e → InvW e := by
  induction ls with
  | nil =>
      intro e0 e h0 hr
      cases Option.some.inj hr
      exact h0
  | cons l ls ih =>
      intro e0 e h0 hr
      rw [runFrom] at hr
      cases hstep : step sf e0 l with
      | none => rw [hstep] at hr; exact Option.noConfusion hr
      | some e1 =>
          rw [hstep] at hr
          exact ih e1 e (invW_step sf e0 l e1 h0 hstep) hr

theorem invW_reach (sf : Rat) (e : Engine) (hr : Reach sf e) : InvW e := by
  rcases hr with ⟨ls, hls⟩
  exact invW_run sf ls initEngine e invW_init hls

/-! ## Progress-field transfer lemmas -/

theorem core_map_component {α : Type}
    (f : String × JobStatus × Rat × Option TranscriptionResult ×
      String × String × String × String × String → α)
    (o o' : Option Job) (h : o.map jobCore = o'.map jobCore) :
    o.map (fun j => f (jobCore j)) = o'.map (fun j => f (jobCore j)) := by
  cases o <;> cases o'
  · rfl
  · exact absurd h (by simp)
  · exact absurd h (by simp)
  · simp only [Option.map_some'] at h ⊢
    exact congrArg some (congrArg f (Option.some.inj h))

theorem map_progress_setPositions (isProc : Bool) (q : List String) (js : Registry)
    (i : Nat) (id : String) :
    (jfind (setPositions isProc js q i) id).map Job.progress
      = (jfind js id).map Job.progress :=
  core_map_component (fun t => t.2.2.1) _ _ (jfind_setPositions_core isProc q js i id)

theorem map_progress_jupdate (js : Registry) (id0 : String) (f : Job → Job)
    (hf : ∀ j, (f j).progress = j.progress) (id : String) :
    (jfind (jupdate js id0 f) id).map Job.progress = (jfind js id).map Job.progress := by
  by_cases h : id = id0
  · subst h
    rw [jfind_jupdate_self]
    cases jfind js id <;> simp [hf]
  · rw [jfind_jupdate_ne _ _ _ _ h]

theorem estimProgress_le_99 (elapsed expectedTime : Rat) :
    estimProgress elapsed expectedTime ≤ 99 := by
  unfold estimProgress
  by_cases h : elapsed / expectedTime * 100 > 99
  · simp [h]
  · simp only [h, if_false]
    exact le_of_not_lt h

theorem progress_100_transfer (js js' : Registry) (id : String) (j' : Job)
    (hpp : (jfind js' id).map Job.progress = (jfind js id).map Job.progress)
    (hj' : jfind js' id = some j') (h100 : j'.progress = 100) :
    ∃ j, jfind js id = some j ∧ j.progress = 100 := by
  rw [hj'] at hpp
  cases hjs : jfind js id
  · rw [hjs] at hpp
    exact absurd hpp (by simp)
  · rw [hjs] at hpp
    simp only [Option.map_some'] at hpp
    exact ⟨_, rfl, by rw [← Option.some.inj hpp, h100]⟩

/-- C7.  (i) One estimator tick writes status Transcribing with
progress `elapsed / expectedTime * 100` clamped at 99 (never above),
and ETA text derived from the remaining time; (ii) in any reachable
state, the only transition that raises a job's progress to 100 is the
scheduler's final write of a Completed outcome — never an estimator
tick; (iii) whenever the remaining time is negative, `formatDuration`
yields the friendly minimum message. -/
theorem c7_estimator (sf : Rat) :
    (∀ elapsed expectedTime : Rat,
        (estArgs elapsed expectedTime).status = .transcribing ∧
        (estArgs elapsed expectedTime).progress = min (elapsed / expectedTime * 100) 99 ∧
        (estArgs elapsed expectedTime).progress ≤ 99 ∧
        (estArgs elapsed expectedTime).eta = formatDuration (expectedTime - elapsed)) ∧
    (∀ (e : Engine) (l : Label) (e' : Engine) (id : String) (j' : Job),
        Reach sf e → step sf e l = some e' →
        jfind e'.jobs id = some j' → j'.progress = 100 →
        (∃ j, jfind e.jobs id = some j ∧ j.progress = 100) ∨
        (l = .schedFinalWrite ∧ ∃ args, e.spc = .finalWrite id args ∧
          args.status = .completed ∧ args.progress = 100)) ∧
    (∀ s : Rat, s < 0 → formatDuration s = "Almost done...") := by
  refine ⟨?_, ?_, ?_⟩
  · intro elapsed expectedTime
    refine ⟨rfl, ?_, ?_, rfl⟩
    · show estimProgress elapsed expectedTime = _
      unfold estimProgress
      by_cases h : elapsed / expectedTime * 100 > 99
      · simp [h, min_eq_right (le_of_lt h)]
      · simp [h, min_eq_left (le_of_not_lt h)]
    · show estimProgress elapsed expectedTime ≤ 99
      unfold estimProgress
      by_cases h : elapsed / expectedTime * 100 > 99
      · simp [h]
      · simp only [h, if_false]
        exact le_of_not_lt h
  · intro e l e' id j' hr hs hj' h100
    cases l with
    | create id0 fn ap lg =>
        rw [step_create_shape sf e e' id0 fn ap lg hs] at hj'
        by_cases hid : id = id0
        · subst hid
          have hc : (jfind (createJob e id fn ap lg).jobs id).map jobCore
              = some (jobCore (freshJob id fn ap lg)) := by
            show (jfind (setPositions _ _ _ 0) id).map jobCore = _
            rw [jfind_setPositions_core, jfind_jinsert_self]
            rfl
          rw [hj'] at hc
          have hp : j'.progress = (0 : Rat) :=
            congrArg (fun t => t.2.2.1) (Option.some.inj hc)
          rw [h100] at hp
          exact absurd hp (by norm_num)
        · left
          refine progress_100_transfer e.jobs _ id j' ?_ hj' h100
          have hcore : (jfind (createJob e id0 fn ap lg).jobs id).map jobCore
              = (jfind e.jobs id).map jobCore := by
            show (jfind (setPositions _ _ _ 0) id).map jobCore = _
            rw [jfind_setPositions_core, jfind_jinsert_ne _ _ _ _ hid]
          exact core_map_component (fun t => t.2.2.1) _ _ hcore
    | cancel id0 =>
        rw [step_cancel_shape sf e e' id0 hs] at hj'
        left
        refine progress_100_transfer e.jobs _ id j' ?_ hj' h100
        by_cases h : id0 ∈ e.queue
        · rcases cancelJob_found e id0 h with ⟨m, hm⟩
          rw [hm]
          show (jfind (setPositions _ (jupdate e.jobs id0 _) _ 0) id).map Job.progress = _
          rw [map_progress_setPositions]
          refine map_progress_jupdate _ _ _ ?_ id
          exact fun j => rfl
        · rw [cancelJob_not_found e id0 h]
    | killMark id0 =>
        rcases step_killMark_shape sf e e' id0 hs with ⟨_, he'⟩
        subst he'
        exact Or.inl ⟨j', hj', h100⟩
    | killRead =>
        rcases step_killRead_shape sf e e' hs with ⟨_, _, he'⟩
        subst he'
        exact Or.inl ⟨j', hj', h100⟩
    | killSignal =>
        rcases step_killSignal_shape sf e e' hs with ⟨_, _, _, h2⟩
        rcases h2 with ⟨he', _⟩ | ⟨_, _, _, he'⟩ <;> subst he' <;> exact Or.inl ⟨j', hj', h100⟩
    | killWrite =>
        rcases step_killWrite_shape sf e e' hs with ⟨id0, _, he'⟩
        subst he'
        left
        refine progress_100_transfer e.jobs _ id j' ?_ hj' h100
        show (jfind (jupdate e.jobs id0 killUpd) id).map Job.progress = _
        refine map_progress_jupdate _ _ _ ?_ id
        exact fun j => rfl
    | schedTake =>
        rcases step_schedTake_shape sf e e' hs with ⟨_, _, _, _, he'⟩
        subst he'
        exact Or.inl ⟨j', hj', h100⟩
    | schedSnap =>
        rcases step_schedSnap_shape sf e e' hs with ⟨_, _, h2⟩
        rcases h2 with he' | ⟨_, _, he'⟩ <;> subst he' <;> exact Or.inl ⟨j', hj', h100⟩
    | schedDur probe =>
        rcases step_schedDur_shape sf e e' probe hs with ⟨_, _, _, _, h2⟩
        rcases h2 with he' | ⟨_, _, he'⟩ <;> subst he' <;> exact Or.inl ⟨j', hj', h100⟩
    | schedStartEst =>
        rcases step_schedStartEst_shape sf e e' hs with ⟨_, _, _, _, he'⟩
        subst he'
        exact Or.inl ⟨j', hj', h100⟩
    | schedSetWorker =>
        rcases step_schedSetWorker_shape sf e e' hs with ⟨_, _, _, _, he'⟩
        subst he'
        exact Or.inl ⟨j', hj', h100⟩
    | schedWorkerRet out =>
        rcases step_schedWorkerRet_shape sf e e' out hs with ⟨_, _, _, _, he'⟩
        subst he'
        exact Or.inl ⟨j', hj', h100⟩
    | schedClearWorker =>
        rcases step_schedClearWorker_shape sf e e' hs with ⟨_, _, _, _, _, he'⟩
        subst he'
        exact Or.inl ⟨j', hj', h100⟩
    | schedCloseStop =>
        rcases step_schedCloseStop_shape sf e e' hs with ⟨_, _, _, _, _, he'⟩
        subst he'
        exact Or.inl ⟨j', hj', h100⟩
    | schedDecide =>
        rcases step_schedDecide_shape sf e e' hs with ⟨_, _, _, _, he'⟩
        subst he'
        exact Or.inl ⟨j', hj', h100⟩
    | schedFinalWrite =>
        rcases step_schedFinalWrite_shape sf e e' hs with ⟨tid, args, hspc, he'⟩
        subst he'
        by_cases hid : id = tid
        · subst hid
          have hj2 : jfind (jupdate e.jobs id (applyUpd args)) id = some j' := hj'
          rw [jfind_jupdate_self] at hj2
          cases hje : jfind e.jobs id
          · rw [hje] at hj2
            exact absurd hj2 (by simp)
          · rw [hje] at hj2
            simp only [Option.map_some'] at hj2
            have hprog : args.progress = 100 := by
              have hjj : j' = applyUpd args _ := (Option.some.inj hj2).symm
              rw [hjj] at h100
              simpa [applyUpd] using h100
            exact Or.inr ⟨rfl, args, hspc,
              (invW_reach sf e hr).argsOK _ args hspc hprog, hprog⟩
        · left
          refine progress_100_transfer e.jobs _ id j' ?_ hj' h100
          show (jfind (jupdate e.jobs tid (applyUpd args)) id).map Job.progress = _
          rw [jfind_jupdate_ne _ _ _ _ hid]
    | schedPop =>
        rcases step_schedPop_shape sf e e' hs with ⟨_, he'⟩
        subst he'
        exact Or.inl ⟨j', hj', h100⟩
    | schedRepos =>
        rcases step_schedRepos_shape sf e e' hs with ⟨_, he'⟩
        subst he'
        left
        refine progress_100_transfer e.jobs _ id j' ?_ hj' h100
        exact map_progress_setPositions _ _ _ _ _
    | estTick i el =>
        rcases step_estTick_shape sf e e' i el hs with ⟨_, _, _, _, h2⟩
        rcases h2 with ⟨_, he'⟩ | ⟨_, he'⟩ <;> subst he' <;> exact Or.inl ⟨j', hj', h100⟩
    | estWrite i =>
        rcases step_estWrite_shape sf e e' i hs with ⟨est, el, hgi, hp, hd, he'⟩
        subst he'
        by_cases hid : id = est.job
        · subst hid
          have hj2 : jfind (jupdate e.jobs est.job (applyUpd (estArgs el est.expectedTime)))
              est.job = some j' := hj'
          rw [jfind_jupdate_self] at hj2
          cases hje : jfind e.jobs est.job
          · rw [hje] at hj2
            exact absurd hj2 (by simp)
          · rw [hje] at hj2
            simp only [Option.map_some'] at hj2
            have hprog : j'.progress = estimProgress el est.expectedTime := by
              have hjj : j' = applyUpd (estArgs el est.expectedTime) _ :=
                (Option.some.inj hj2).symm
              rw [hjj]
              rfl
            rw [h100] at hprog
            have hle := estimProgress_le_99 el est.expectedTime
            rw [← hprog] at hle
            exact absurd hle (by norm_num)
        · left
          refine progress_100_transfer e.jobs _ id j' ?_ hj' h100
          show (jfind (jupdate e.jobs est.job (applyUpd (estArgs el est.expectedTime))) id).map
              Job.progress = _
          rw [jfind_jupdate_ne _ _ _ _ hid]
    | estStop i =>
        rcases step_estStop_shape sf e e' i hs with ⟨_, _, _, he'⟩
        subst he'
        exact Or.inl ⟨j', hj', h100⟩
  · intro s h
    simp [formatDuration, h]

theorem c7_estimator_witness :
    (estArgs 10 20).progress = min (10 / 20 * 100) 99 ∧
    formatDuration (-1) = "Almost done..." ∧
    ((∃ j, jfind c7WitnessEngine.jobs "A" = some j ∧ j.progress = 100) ∨
     (Label.schedFinalWrite = Label.schedFinalWrite ∧
      ∃ args, c7WitnessEngine.spc = SPC.finalWrite "A" args ∧
        args.status = .completed ∧ args.progress = 100)) := by
  refine ⟨((c7_estimator (3/2)).1 10 20).2.1,
    (c7_estimator (3/2)).2.2 (-1) (by norm_num), ?_⟩
  exact (c7_estimator (3/2)).2.1 c7WitnessEngine .schedFinalWrite c7WitnessEngine2
    "A" c7WitnessJob ⟨c7WitnessTrace, rfl⟩ rfl rfl (by decide)

/-- C3 (amended).  When the active job is killed, once the worker call
has returned the worker handle is null and the scheduler is past the
clear step; the job ends Failed, but which error message survives
depends on the write order, which the code does not fix: if the
scheduler's terminal write (`Transcribe`'s cancellation check,
line 384) lands last, the final error is "Cancelled by user" — the
graceful-cancel message, not a distinct "killed" one; if `KillJob`'s
registry write (lines 774-780) lands after the scheduler's terminal
write, the final error is "Killed by user".  The scheduler proceeds
either way (program point moves to the queue pop). -/
theorem c3_kill_final (sf : Rat) (e : Engine) (id lg : String) (out : WorkerOutcome)
    (hr : Reach sf e) (hpc : e.spc = .decideOutcome id lg out)
    (hc : isCancelled e id = true) :
    e.workerCmd = none ∧
    (∀ e1 e2, step sf e .schedDecide = some e1 → step sf e1 .schedFinalWrite = some e2 →
      e2.spc = .popHead ∧
      ((jfind e2.jobs id).map (fun j => (j.status, j.error))
        = (jfind e.jobs id).map (fun _ => (JobStatus.failed, "Cancelled by user")))) ∧
    (∀ e1 e2 e3, e.killer = some (.writeJ id) →
      step sf e .schedDecide = some e1 → step sf e1 .schedFinalWrite = some e2 →
      step sf e2 .killWrite = some e3 →
      ((jfind e3.jobs id).map (fun j => (j.status, j.error))
        = (jfind e.jobs id).map (fun _ => (JobStatus.failed, "Killed by user")))) := by
  refine ⟨?_, ?_, ?_⟩
  · rw [(invW_reach sf e hr).worker, hpc]
    rfl
  · intro e1 e2 h1 h2
    rcases step_schedDecide_shape sf e e1 h1 with ⟨id', lg', out', hpc', he1⟩
    have hinj : SPC.decideOutcome id lg out = SPC.decideOutcome id' lg' out' :=
      hpc.symm.trans hpc'
    injection hinj with a b c
    subst a
    subst b
    subst c
    rcases step_schedFinalWrite_shape sf e1 e2 h2 with ⟨id2, args2, hpc2, he2⟩
    rw [he1] at hpc2
    have h3 : SPC.finalWrite id (outcomeArgs (isCancelled e id) lg out)
        = SPC.finalWrite id2 args2 := hpc2
    injection h3 with a b
    subst a
    subst b
    subst he2
    rw [he1]
    refine ⟨rfl, ?_⟩
    show (jfind (jupdate e.jobs id
        (applyUpd (outcomeArgs (isCancelled e id) lg out))) id).map _ = _
    rw [jfind_jupdate_self, hc]
    cases jfind e.jobs id
    · rfl
    · rfl
  · intro e1 e2 e3 hkl h1 h2 h3
    rcases step_schedDecide_shape sf e e1 h1 with ⟨id', lg', out', hpc', he1⟩
    have hinj : SPC.decideOutcome id lg out = SPC.decideOutcome id' lg' out' :=
      hpc.symm.trans hpc'
    injection hinj with a b c
    subst a
    subst b
    subst c
    subst he1
    rcases step_schedFinalWrite_shape sf _ e2 h2 with ⟨id2, args2, hpc2, he2⟩
    have hpc2' : SPC.finalWrite id (outcomeArgs (isCancelled e id) lg out)
        = SPC.finalWrite id2 args2 := hpc2
    injection hpc2' with a b
    subst a
    subst b
    subst he2
    rcases step_killWrite_shape sf _ e3 h3 with ⟨id3, hk3, he3⟩
    have hk3' : e.killer = some (KillPhase.writeJ id3) := hk3
    rw [hkl] at hk3'
    injection hk3' with hx
    injection hx with hx2
    subst hx2
    subst he3
    show (jfind (jupdate (jupdate e.jobs id
        (applyUpd (outcomeArgs (isCancelled e id) lg out))) id killUpd) id).map _ = _
    rw [jupdate_jupdate, jfind_jupdate_self]
    cases jfind e.jobs id
    · rfl
    · rfl

/-- C3 counterexample: submit A, let it become active, run a complete
`KillJob "A"` call while the worker is running, let the worker call
return.  In this interleaving the kill's registry write precedes the
scheduler's cancellation check, which overwrites it: the final error
on A is "Cancelled by user" — the same message graceful cancellation
produces — not a distinct "killed" message, contradicting the claim
that the final state carries an error identifying the job as
killed. -/
theorem c3_kill_message_cex :
    ((jfind c3CexEngine.jobs "A").map (fun j => (j.status, j.error)))
      = some (.failed, "Cancelled by user") ∧
    ((jfind c3CexEngine.jobs "A").map (fun j => j.error)) ≠ some "Killed by user" ∧
    c3CexEngine.workerCmd = none ∧
    c3CexEngine.spc = .idle := by
  decide

theorem c3_kill_final_witness :
    c3WitnessEngine.workerCmd = none ∧
    c3WitnessEngine2.spc = SPC.popHead ∧
    ((jfind c3WitnessEngine2.jobs "A").map (fun j => (j.status, j.error))
      = (jfind c3WitnessEngine.jobs "A").map (fun _ => (JobStatus.failed, "Cancelled by user"))) ∧
    ((jfind c3WitnessEngine3.jobs "A").map (fun j => (j.status, j.error))
      = (jfind c3WitnessEngine.jobs "A").map (fun _ => (JobStatus.failed, "Killed by user"))) := by
  have h := c3_kill_final (3/2) c3WitnessEngine "A" "en" killErrOut
    ⟨c3WitnessTrace, rfl⟩ rfl (by decide)
  exact ⟨h.1, (h.2.1 c3WitnessEngine1 c3WitnessEngine2 rfl rfl).1,
    (h.2.1 c3WitnessEngine1 c3WitnessEngine2 rfl rfl).2,
    h.2.2 c3WitnessEngine1 c3WitnessEngine2 c3WitnessEngine3 rfl rfl rfl rfl⟩

/-- C4 counterexample: job A reaches the terminal status Completed
(progress 100, empty error); a subsequent `KillJob "A"` then mutates
it to Failed with error "Killed by user", so a terminal state is not
immutable under later engine operations. -/
theorem c4_terminal_mutation_cex :
    ((jfind c4CexEngine.jobs "A").map (fun j => (j.status, j.error)))
      = some (.completed, "") ∧
    ((jfind c4CexEngine2.jobs "A").map (fun j => (j.status, j.error)))
      = some (.failed, "Killed by user") := by
  decide

/-! ## Invariant for executions without stale estimator steps -/

theorem get?_append_cases {α : Type} (l : List α) (a : α) :
    ∀ (i : Nat) (x : α), (l ++ [a]).get? i = some x →
      (i < l.length ∧ l.get? i = some x) ∨ (i = l.length ∧ x = a) := by
  induction l with
  | nil =>
      intro i x h
      cases i with
      | zero =>
          refine Or.inr ⟨rfl, ?_⟩
          simpa [List.get?] using (Option.some.inj h).symm
      | succ n => simp [List.get?] at h
  | cons b bs ih =>
      intro i x h
      cases i with
      | zero =>
          refine Or.inl ⟨by simp, ?_⟩
          simpa [List.get?] using h
      | succ n =>
          rcases ih n x (by simpa [List.get?] using h) with ⟨h1, h2⟩ | ⟨h1, h2⟩
          · exact Or.inl ⟨by simpa using Nat.succ_lt_succ h1, by simpa [List.get?] using h2⟩
          · exact Or.inr ⟨by simpa using h1, h2⟩

theorem get?_set_self {α : Type} (l : List α) :
    ∀ (i : Nat) (a b : α), l.get? i = some b → (l.set i a).get? i = some a := by
  induction l with
  | nil => intro i a b h; simp [List.get?] at h
  | cons x xs ih =>
      intro i a b h
      cases i with
      | zero => rfl
      | succ n => exact ih n a b (by simpa [List.get?] using h)

theorem get?_set_other {α : Type} (l : List α) :
    ∀ (i j : Nat) (a : α), j ≠ i → (l.set i a).get? j = l.get? j := by
  induction l with
  | nil => intro i j a h; rfl
  | cons x xs ih =>
      intro i j a h
      cases i with
      | zero =>
          cases j with
          | zero => exact absurd rfl h
          | succ m => rfl
      | succ n =>
          cases j with
          | zero => rfl
          | succ m => exact ih n m a (fun hc => h (by rw [hc]))

theorem stepSync_elim (sf : Rat) (e : Engine) (l : Label) (e' : Engine)
    (hs : stepSync sf e l = some e') : syncOK e l = true ∧ step sf e l = some e' := by
  unfold stepSync at hs
  by_cases h : syncOK e l = true
  · rw [if_pos h] at hs
    exact ⟨h, hs⟩
  · rw [if_neg h] at hs
    exact Option.noConfusion hs

theorem core_status_eq (j j' : Job) (h : jobCore j = jobCore j') : j.status = j'.status :=
  congrArg (fun t => t.2.1) h

theorem spcEstIdx_some_phase (s : SPC) (i : Nat) (h : spcEstIdx s = some i) :
    spcTranscrPhase s = true := by
  cases s <;> simp [spcEstIdx] at h <;> rfl

theorem no_transcribing_of_phase (e : Engine) (hi : InvP e)
    (hph : spcTranscrPhase e.spc = false) :
    ∀ p ∈ e.jobs, p.2.status ≠ JobStatus.transcribing := by
  intro p hp h
  have h2 := (hi.transcrOK p hp h).2
  rw [hph] at h2
  exact Bool.noConfusion h2

theorem no_live_of_estIdx_none (e : Engine) (hi : InvP e)
    (hnone : spcEstIdx e.spc = none) :
    ∀ i est, e.ests.get? i = some est → est.stopped = false → False := by
  intro i est hg hstop
  have h2 := (hi.estLive i est hg hstop).1
  rw [hnone] at h2
  exact Option.noConfusion h2

/-- Modifying one estimator in a way that keeps its `stopped` flag and
its job preserves the live-estimator clause of the invariant. -/
theorem estLive_estModify (e : Engine) (hi : InvP e) (i : Nat) (est : EstState)
    (hgi : e.ests.get? i = some est) (f : EstState → EstState)
    (hf : ∀ x, (f x).stopped = x.stopped ∧ (f x).job = x.job) :
    ∀ k estk, (estModify e.ests i f).get? k = some estk → estk.stopped = false →
      spcEstIdx e.spc = some k ∧ spcCurrent e.spc = some estk.job := by
  intro k estk hg hstop
  unfold estModify at hg
  rw [hgi] at hg
  by_cases hki : k = i
  · subst hki
    rw [get?_set_self _ _ _ _ hgi] at hg
    have hx := Option.some.inj hg
    have hstop' : est.stopped = false := by
      rw [← hx, (hf est).1] at hstop
      exact hstop
    have h3 := hi.estLive k est hgi hstop'
    refine ⟨h3.1, ?_⟩
    rw [← hx, (hf est).2]
    exact h3.2
  · rw [get?_set_other _ _ _ _ hki] at hg
    exact hi.estLive k estk hg hstop

theorem invP_init : InvP initEngine := by
  refine ⟨?_, ?_, ?_, ?_, ?_⟩
  · intro p hp
    exact absurd hp (by simp [initEngine])
  · intro p hp
    exact absurd hp (by simp [initEngine])
  · intro i est hg
    simp [initEngine, List.get?] at hg
  · intro id args h
    exact SPC.noConfusion h
  · simp [initEngine]

theorem invP_stepSync (sf : Rat) (e : Engine) (l : Label) (e' : Engine)
    (hi : InvP e) (hs : stepSync sf e l = some e') : InvP e' := by
  rcases stepSync_elim sf e l e' hs with ⟨hsync, hstep⟩
  cases l with
  | create id0 fn ap lg =>
      rw [step_create_shape sf e e' id0 fn ap lg hstep]
      refine ⟨?_, ?_, hi.estLive, hi.argsTerminal, ?_⟩
      · intro p hp hcontra
        rcases mem_setPositions _ _ _ _ p hp with ⟨q, hq, hk, hcore⟩
        have hqs : q.2.status = .processing := (core_status_eq _ _ hcore).symm.trans hcontra
        rcases mem_jinsert _ _ _ q hq with hq' | hq'
        · rw [hq'] at hqs
          exact JobStatus.noConfusion hqs
        · exact hi.noProcessing q hq' hqs
      · intro p hp htr
        rcases mem_setPositions _ _ _ _ p hp with ⟨q, hq, hk, hcore⟩
        have hqs : q.2.status = .transcribing := (core_status_eq _ _ hcore).symm.trans htr
        rcases mem_jinsert _ _ _ q hq with hq' | hq'
        · rw [hq'] at hqs
          exact JobStatus.noConfusion hqs
        · have h2 := hi.transcrOK q hq' hqs
          rw [hk]
          exact h2
      · show ((setPositions _ _ _ 0).map (fun p => p.1)).Nodup
        rw [map_fst_setPositions]
        exact keysNodup_jinsert _ _ _ hi.keysNodup
  | cancel id0 =>
      have he' := step_cancel_shape sf e e' id0 hstep
      by_cases hmem : id0 ∈ e.queue
      · rcases cancelJob_found e id0 hmem with ⟨m, hm⟩
        rw [hm] at he'
        subst he'
        refine ⟨?_, ?_, hi.estLive, hi.argsTerminal, ?_⟩
        · intro p hp hcontra
          rcases mem_setPositions _ _ _ _ p hp with ⟨q, hq, hk, hcore⟩
          have hqs : q.2.status = .processing := (core_status_eq _ _ hcore).symm.trans hcontra
          rcases mem_jupdate _ _ _ q hq with ⟨r, hr, hrk, hcase⟩
          rcases hcase with ⟨_, hval⟩ | ⟨_, hval⟩
          · rw [hval] at hqs
            exact JobStatus.noConfusion hqs
          · exact hi.noProcessing r hr (hval ▸ hqs)
        · intro p hp htr
          rcases mem_setPositions _ _ _ _ p hp with ⟨q, hq, hk, hcore⟩
          have hqs : q.2.status = .transcribing := (core_status_eq _ _ hcore).symm.trans htr
          rcases mem_jupdate _ _ _ q hq with ⟨r, hr, hrk, hcase⟩
          rcases hcase with ⟨_, hval⟩ | ⟨_, hval⟩
          · rw [hval] at hqs
            exact JobStatus.noConfusion hqs
          · have h2 := hi.transcrOK r hr (hval ▸ hqs)
            rw [hk, hrk]
            exact h2
        · show ((setPositions _ _ _ 0).map (fun p => p.1)).Nodup
          rw [map_fst_setPositions, map_fst_jupdate]
          exact hi.keysNodup
      · rw [cancelJob_not_found e id0 hmem] at he'
        subst he'
        exact ⟨hi.noProcessing, hi.transcrOK, hi.estLive, hi.argsTerminal, hi.keysNodup⟩
  | killMark id0 =>
      rcases step_killMark_shape sf e e' id0 hstep with ⟨_, he'⟩
      subst he'
      exact ⟨hi.noProcessing, hi.transcrOK, hi.estLive, hi.argsTerminal, hi.keysNodup⟩
  | killRead =>
      rcases step_killRead_shape sf e e' hstep with ⟨_, _, he'⟩
      subst he'
      exact ⟨hi.noProcessing, hi.transcrOK, hi.estLive, hi.argsTerminal, hi.keysNodup⟩
  | killSignal =>
      rcases step_killSignal_shape sf e e' hstep with ⟨_, _, _, h2⟩
      rcases h2 with ⟨he', _⟩ | ⟨_, _, _, he'⟩ <;> subst he' <;>
        exact ⟨hi.noProcessing, hi.transcrOK, hi.estLive, hi.argsTerminal, hi.keysNodup⟩
  | killWrite =>
      rcases step_killWrite_shape sf e e' hstep with ⟨id0, _, he'⟩
      subst he'
      refine ⟨?_, ?_, hi.estLive, hi.argsTerminal, ?_⟩
      · intro p hp hcontra
        rcases mem_jupdate _ _ _ p hp with ⟨r, hr, hrk, hcase⟩
        rcases hcase with ⟨_, hval⟩ | ⟨_, hval⟩
        · rw [hval] at hcontra
          exact JobStatus.noConfusion hcontra
        · exact hi.noProcessing r hr (hval ▸ hcontra)
      · intro p hp htr
        rcases mem_jupdate _ _ _ p hp with ⟨r, hr, hrk, hcase⟩
        rcases hcase with ⟨_, hval⟩ | ⟨_, hval⟩
        · rw [hval] at htr
          exact JobStatus.noConfusion htr
        · have h2 := hi.transcrOK r hr (hval ▸ htr)
          rw [hrk]
          exact h2
      · show ((jupdate _ _ _).map (fun p => p.1)).Nodup
        rw [map_fst_jupdate]
        exact hi.keysNodup
  | schedTake =>
      rcases step_schedTake_shape sf e e' hstep with ⟨id, rest, hspc, hq, he'⟩
      subst he'
      refine ⟨hi.noProcessing, ?_, ?_, fun id' args h => SPC.noConfusion h, hi.keysNodup⟩
      · intro p hp htr
        exact absurd htr (no_transcribing_of_phase e hi (by rw [hspc]; rfl) p hp)
      · intro i est hg hstop
        exact (no_live_of_estIdx_none e hi (by rw [hspc]; rfl) i est hg hstop).elim
  | schedSnap =>
      rcases step_schedSnap_shape sf e e' hstep with ⟨id, hspc, h2⟩
      rcases h2 with he' | ⟨j, _, he'⟩ <;> subst he' <;>
        refine ⟨hi.noProcessing, ?_, ?_, fun id' args h => SPC.noConfusion h, hi.keysNodup⟩ <;>
        first
        | (intro p hp htr
           exact absurd htr (no_transcribing_of_phase e hi (by rw [hspc]; rfl) p hp))
        | (intro i est hg hstop
           exact (no_live_of_estIdx_none e hi (by rw [hspc]; rfl) i est hg hstop).elim)
  | schedDur probe =>
      rcases step_schedDur_shape sf e e' probe hstep with ⟨id, ap, lg, hspc, h2⟩
      rcases h2 with he' | ⟨d, _, he'⟩ <;> subst he'
      · refine ⟨hi.noProcessing, ?_, ?_, ?_, hi.keysNodup⟩
        · intro p hp htr
          exact absurd htr (no_transcribing_of_phase e hi (by rw [hspc]; rfl) p hp)
        · intro i est hg hstop
          exact (no_live_of_estIdx_none e hi (by rw [hspc]; rfl) i est hg hstop).elim
        · intro id' args h
          have h3 : SPC.finalWrite id durFailArgs = SPC.finalWrite id' args := h
          injection h3 with a b
          subst b
          exact Or.inl rfl
      · refine ⟨hi.noProcessing, ?_, ?_, fun id' args h => SPC.noConfusion h, hi.keysNodup⟩
        · intro p hp htr
          exact absurd htr (no_transcribing_of_phase e hi (by rw [hspc]; rfl) p hp)
        · intro i est hg hstop
          exact (no_live_of_estIdx_none e hi (by rw [hspc]; rfl) i est hg hstop).elim
  | schedStartEst =>
      rcases step_schedStartEst_shape sf e e' hstep with ⟨id, lg, exp, hspc, he'⟩
      subst he'
      refine ⟨hi.noProcessing, ?_, ?_, fun id' args h => SPC.noConfusion h, hi.keysNodup⟩
      · intro p hp htr
        exact absurd htr (no_transcribing_of_phase e hi (by rw [hspc]; rfl) p hp)
      · intro i est hg hstop
        rcases get?_append_cases e.ests ⟨id, exp, false, false, none⟩ i est hg with
          ⟨hlt, hg'⟩ | ⟨hil, hx⟩
        · exact (no_live_of_estIdx_none e hi (by rw [hspc]; rfl) i est hg' hstop).elim
        · subst hil
          subst hx
          exact ⟨rfl, rfl⟩
  | schedSetWorker =>
      rcases step_schedSetWorker_shape sf e e' hstep with ⟨id, lg, ei, hspc, he'⟩
      subst he'
      refine ⟨hi.noProcessing, ?_, ?_, fun id' args h => SPC.noConfusion h, hi.keysNodup⟩
      · intro p hp htr
        have h2 := hi.transcrOK p hp htr
        rw [hspc] at h2
        exact ⟨h2.1, rfl⟩
      · intro i est hg hstop
        have h2 := hi.estLive i est hg hstop
        rw [hspc] at h2
        exact h2
  | schedWorkerRet out =>
      rcases step_schedWorkerRet_shape sf e e' out hstep with ⟨id, lg, ei, hspc, he'⟩
      subst he'
      refine ⟨hi.noProcessing, ?_, ?_, fun id' args h => SPC.noConfusion h, hi.keysNodup⟩
      · intro p hp htr
        have h2 := hi.transcrOK p hp htr
        rw [hspc] at h2
        exact ⟨h2.1, rfl⟩
      · intro i est hg hstop
        have h2 := hi.estLive i est hg hstop
        rw [hspc] at h2
        exact h2
  | schedClearWorker =>
      rcases step_schedClearWorker_shape sf e e' hstep with ⟨id, lg, ei, out, hspc, he'⟩
      subst he'
      refine ⟨hi.noProcessing, ?_, ?_, fun id' args h => SPC.noConfusion h, hi.keysNodup⟩
      · intro p hp htr
        have h2 := hi.transcrOK p hp htr
        rw [hspc] at h2
        exact ⟨h2.1, rfl⟩
      · intro i est hg hstop
        have h2 := hi.estLive i est hg hstop
        rw [hspc] at h2
        exact h2
  | schedCloseStop =>
      rcases step_schedCloseStop_shape sf e e' hstep with ⟨id, lg, ei, out, hspc, he'⟩
      subst he'
      refine ⟨hi.noProcessing, ?_, ?_, fun id' args h => SPC.noConfusion h, hi.keysNodup⟩
      · intro p hp htr
        have h2 := hi.transcrOK p hp htr
        rw [hspc] at h2
        exact ⟨h2.1, rfl⟩
      · intro i est hg hstop
        cases hold : e.ests.get? ei with
        | none =>
            have hg2 : e.ests.get? i = some est := by
              have hg' : (estModify e.ests ei
                  (fun x => { x with stopped := true })).get? i = some est := hg
              unfold estModify at hg'
              rw [hold] at hg'
              exact hg'
            have h2 := hi.estLive i est hg2 hstop
            rw [hspc] at h2
            have hie : ei = i := Option.some.inj h2.1
            rw [hie, hg2] at hold
            exact Option.noConfusion hold
        | some est0 =>
            have hg2 : (e.ests.set ei { est0 with stopped := true }).get? i = some est := by
              have hg' : (estModify e.ests ei
                  (fun x => { x with stopped := true })).get? i = some est := hg
              unfold estModify at hg'
              rw [hold] at hg'
              exact hg'
            by_cases hie : i = ei
            · subst hie
              rw [get?_set_self _ _ _ _ hold] at hg2
              have hx := Option.some.inj hg2
              rw [← hx] at hstop
              exact Bool.noConfusion hstop
            · rw [get?_set_other _ _ _ _ hie] at hg2
              have h2 := hi.estLive i est hg2 hstop
              rw [hspc] at h2
              exact absurd (Option.some.inj h2.1) (fun h => hie h.symm)
  | schedDecide =>
      rcases step_schedDecide_shape sf e e' hstep with ⟨id, lg, out, hspc, he'⟩
      subst he'
      refine ⟨hi.noProcessing, ?_, ?_, ?_, hi.keysNodup⟩
      · intro p hp htr
        have h2 := hi.transcrOK p hp htr
        rw [hspc] at h2
        exact ⟨h2.1, rfl⟩
      · intro i est hg hstop
        exact (no_live_of_estIdx_none e hi (by rw [hspc]; rfl) i est hg hstop).elim
      · intro id' args h
        have h3 : SPC.finalWrite id (outcomeArgs (isCancelled e id) lg out)
            = SPC.finalWrite id' args := h
        injection h3 with a b
        subst b
        exact outcomeArgs_terminal _ _ _
  | schedFinalWrite =>
      rcases step_schedFinalWrite_shape sf e e' hstep with ⟨fid, args, hspc, he'⟩
      subst he'
      have hterm := hi.argsTerminal fid args hspc
      refine ⟨?_, ?_, ?_, fun id' args' h => SPC.noConfusion h, ?_⟩
      · intro p hp hcontra
        rcases mem_jupdate _ _ _ p hp with ⟨r, hr, hrk, hcase⟩
        rcases hcase with ⟨_, hval⟩ | ⟨_, hval⟩
        · rw [hval] at hcontra
          have hcc : args.status = .processing := hcontra
          rcases hterm with h | h <;> rw [h] at hcc <;> exact JobStatus.noConfusion hcc
        · exact hi.noProcessing r hr (hval ▸ hcontra)
      · intro p hp htr
        rcases mem_jupdate _ _ _ p hp with ⟨r, hr, hrk, hcase⟩
        rcases hcase with ⟨_, hval⟩ | ⟨hne, hval⟩
        · rw [hval] at htr
          have hcc : args.status = .transcribing := htr
          rcases hterm with h | h <;> rw [h] at hcc <;> exact JobStatus.noConfusion hcc
        · have h2 := hi.transcrOK r hr (hval ▸ htr)
          rw [hspc] at h2
          exact absurd (Option.some.inj h2.1).symm hne
      · intro i est hg hstop
        exact (no_live_of_estIdx_none e hi (by rw [hspc]; rfl) i est hg hstop).elim
      · show ((jupdate _ _ _).map (fun p => p.1)).Nodup
        rw [map_fst_jupdate]
        exact hi.keysNodup
  | schedPop =>
      rcases step_schedPop_shape sf e e' hstep with ⟨hspc, he'⟩
      subst he'
      refine ⟨hi.noProcessing, ?_, ?_, fun id' args h => SPC.noConfusion h, hi.keysNodup⟩
      · intro p hp htr
        exact absurd htr (no_transcribing_of_phase e hi (by rw [hspc]; rfl) p hp)
      · intro i est hg hstop
        exact (no_live_of_estIdx_none e hi (by rw [hspc]; rfl) i est hg hstop).elim
  | schedRepos =>
      rcases step_schedRepos_shape sf e e' hstep with ⟨hspc, he'⟩
      subst he'
      refine ⟨?_, ?_, ?_, fun id' args h => SPC.noConfusion h, ?_⟩
      · intro p hp hcontra
        rcases mem_setPositions _ _ _ _ p hp with ⟨q, hq, hk, hcore⟩
        exact hi.noProcessing q hq ((core_status_eq _ _ hcore).symm.trans hcontra)
      · intro p hp htr
        rcases mem_setPositions _ _ _ _ p hp with ⟨q, hq, hk, hcore⟩
        exact absurd ((core_status_eq _ _ hcore).symm.trans htr)
          (no_transcribing_of_phase e hi (by rw [hspc]; rfl) q hq)
      · intro i est hg hstop
        exact (no_live_of_estIdx_none e hi (by rw [hspc]; rfl) i est hg hstop).elim
      · show ((setPositions _ _ _ 0).map (fun p => p.1)).Nodup
        rw [map_fst_setPositions]
        exact hi.keysNodup
  | estTick i el =>
      rcases step_estTick_shape sf e e' i el hstep with ⟨est, hgi, hd, hpend, h2⟩
      rcases h2 with ⟨_, he'⟩ | ⟨_, he'⟩ <;> subst he'
      · exact ⟨hi.noProcessing, hi.transcrOK,
          fun k estk hg hstop =>
            estLive_estModify e hi i est hgi (fun x => { x with done := true })
              (fun x => ⟨rfl, rfl⟩) k estk hg hstop,
          hi.argsTerminal, hi.keysNodup⟩
      · exact ⟨hi.noProcessing, hi.transcrOK,
          fun k estk hg hstop =>
            estLive_estModify e hi i est hgi (fun x => { x with pending := some el })
              (fun x => ⟨rfl, rfl⟩) k estk hg hstop,
          hi.argsTerminal, hi.keysNodup⟩
  | estWrite i =>
      rcases step_estWrite_shape sf e e' i hstep with ⟨est, el, hgi, hpend, hd, he'⟩
      subst he'
      have hstop0 : est.stopped = false := by
        simp only [syncOK, hgi] at hsync
        simpa using hsync
      have hlive := hi.estLive i est hgi hstop0
      refine ⟨?_, ?_, ?_, hi.argsTerminal, ?_⟩
      · intro p hp hcontra
        rcases mem_jupdate _ _ _ p hp with ⟨r, hr, hrk, hcase⟩
        rcases hcase with ⟨_, hval⟩ | ⟨_, hval⟩
        · rw [hval] at hcontra
          exact JobStatus.noConfusion hcontra
        · exact hi.noProcessing r hr (hval ▸ hcontra)
      · intro p hp htr
        rcases mem_jupdate _ _ _ p hp with ⟨r, hr, hrk, hcase⟩
        rcases hcase with ⟨hrid, hval⟩ | ⟨_, hval⟩
        · rw [hrk, hrid]
          exact ⟨hlive.2, spcEstIdx_some_phase _ i hlive.1⟩
        · have h2 := hi.transcrOK r hr (hval ▸ htr)
          rw [hrk]
          exact h2
      · exact fun k estk hg hstop =>
          estLive_estModify e hi i est hgi (fun x => { x with pending := none })
            (fun x => ⟨rfl, rfl⟩) k estk hg hstop
      · show ((jupdate _ _ _).map (fun p => p.1)).Nodup
        rw [map_fst_jupdate]
        exact hi.keysNodup
  | estStop i =>
      rcases step_estStop_shape sf e e' i hstep with ⟨est, hgi, hstopped, he'⟩
      subst he'
      exact ⟨hi.noProcessing, hi.transcrOK,
        fun k estk hg hstop =>
          estLive_estModify e hi i est hgi (fun x => { x with done := true })
            (fun x => ⟨rfl, rfl⟩) k estk hg hstop,
        hi.argsTerminal, hi.keysNodup⟩

theorem invP_runSync (sf : Rat) (ls : List Label) :
    ∀ (e0 e : Engine), InvP e0 → runSyncFrom sf e0 ls = some e → InvP e := by
  induction ls with
  | nil =>
      intro e0 e h0 hr
      cases Option.some.inj hr
      exact h0
  | cons l ls ih =>
      intro e0 e h0 hr
      rw [runSyncFrom] at hr
      cases hstep : stepSync sf e0 l with
      | none => rw [hstep] at hr; exact Option.noConfusion hr
      | some e1 =>
          rw [hstep] at hr
          exact ih e1 e (invP_stepSync sf e0 l e1 h0 hstep) hr

theorem invP_reachSync (sf : Rat) (e : Engine) (hr : ReachSync sf e) : InvP e := by
  rcases hr with ⟨ls, hls⟩
  exact invP_runSync sf ls initEngine e invP_init hls

theorem filter_key_count (js : Registry) (c : String) (pred : String × Job → Bool) :
    (js.map (fun p => p.1)).Nodup →
    (∀ p ∈ js, pred p = true → p.1 = c) →
    (js.filter pred).length ≤ 1 := by
  induction js with
  | nil =>
      intro _ _
      simp
  | cons p ps ih =>
      intro hnd hkey
      rw [List.map_cons] at hnd
      rcases List.nodup_cons.mp hnd with ⟨hh, ht⟩
      by_cases hp : pred p = true
      · rw [List.filter_cons_of_pos hp]
        have hnil : ps.filter pred = [] := by
          rw [List.filter_eq_nil_iff]
          intro q hq hq'
          have hqc : q.1 = c := hkey q (List.mem_cons_of_mem _ hq) hq'
          have hpc : p.1 = c := hkey p (List.mem_cons_self _ _) hp
          exact hh (List.mem_map.mpr ⟨q, hq, hqc.trans hpc.symm⟩)
        rw [hnil]
        simp
      · rw [List.filter_cons_of_neg (by simpa using hp)]
        exact ih ht (fun q hq h' => hkey q (List.mem_cons_of_mem _ hq) h')

/-- C1 (amended).  In every state reachable without stale estimator
steps (estimator steps taken after the scheduler closed that
estimator's stop channel), no job is ever in status Processing — the
code never assigns it — and at most one job is in status Transcribing,
so at most one job is in {Processing, Transcribing}.  With stale
estimator steps, which Go's `select` permits, two jobs can be
Transcribing at once (see the counterexample). -/
theorem c1_single_flight (sf : Rat) (e : Engine) (hr : ReachSync sf e) :
    countStatus e .processing = 0 ∧ countStatus e .transcribing ≤ 1 := by
  have hi := invP_reachSync sf e hr
  constructor
  · unfold countStatus
    rw [List.length_eq_zero, List.filter_eq_nil_iff]
    intro p hp h
    exact hi.noProcessing p hp (of_decide_eq_true h)
  · unfold countStatus
    cases hcur : spcCurrent e.spc with
    | none =>
        have hz : (e.jobs.filter (fun p => decide (p.2.status = .transcribing))).length = 0 := by
          rw [List.length_eq_zero, List.filter_eq_nil_iff]
          intro p hp h
          have h2 := (hi.transcrOK p hp (of_decide_eq_true h)).1
          rw [hcur] at h2
          exact Option.noConfusion h2
        rw [hz]
        norm_num
    | some c =>
        refine filter_key_count e.jobs c _ hi.keysNodup ?_
        intro p hp h
        have h2 := (hi.transcrOK p hp (of_decide_eq_true h)).1
        rw [hcur] at h2
        exact (Option.some.inj h2).symm

/-- C1 counterexample: a full-model trace (Go `select` may pick the
ticker case even after the stop channel is closed) in which job A is
Completed, a stale tick of A's estimator is still pending, job B is
mid-transcription, and the stale write then puts A back into
Transcribing: the reachable state has two jobs in Transcribing at the
same instant, refuting the claim over all interleavings. -/
theorem c1_single_flight_cex :
    Reach (3/2) c1CexEngine ∧ countStatus c1CexEngine .transcribing = 2 :=
  ⟨⟨c1CexTrace, rfl⟩, rfl⟩

theorem c1_single_flight_witness :
    countStatus c1WitnessEngine .processing = 0 ∧
    countStatus c1WitnessEngine .transcribing ≤ 1 :=
  c1_single_flight (3/2) c1WitnessEngine ⟨c1WitnessTrace, rfl⟩

/-- C4 (amended).  In executions without stale estimator steps, once a
job is terminal (Completed or Failed), is not in the pending queue, and
is not the job the scheduler is currently executing, no scheduler step,
estimator step, or `CancelJob` changes any of its fields; but a
`KillJob` naming it or a duplicate-id resubmission still overwrites it
(counterexample: `KillJob` on a Completed job flips it to Failed /
"Killed by user"). -/
theorem c4_terminal_stable (sf : Rat) (e : Engine) (l : Label) (e' : Engine)
    (id : String) (j : Job)
    (hr : ReachSync sf e) (hs : stepSync sf e l = some e')
    (hj : jfind e.jobs id = some j)
    (hterm : j.status = .completed ∨ j.status = .failed)
    (hq : id ∉ e.queue)
    (hcur : spcCurrent e.spc ≠ some id)
    (hl : labelTouches e l id = false) :
    jfind e'.jobs id = some j := by
  have hi := invP_reachSync sf e hr
  rcases stepSync_elim sf e l e' hs with ⟨hsync, hstep⟩
  cases l with
  | create id0 fn ap lg =>
      have hne : id ≠ id0 := by
        have hb : (id0 == id) = false := hl
        intro heq
        rw [heq] at hb
        simp at hb
      rw [step_create_shape sf e e' id0 fn ap lg hstep]
      show jfind (setPositions _ _ (e.queue ++ [id0]) 0) id = some j
      rw [jfind_setPositions_notMem]
      · rw [jfind_jinsert_ne _ _ _ _ hne]
        exact hj
      · intro hmem
        rcases List.mem_append.mp hmem with h | h
        · exact hq h
        · exact hne (List.mem_singleton.mp h)
  | cancel id0 =>
      have he' := step_cancel_shape sf e e' id0 hstep
      by_cases hmem : id0 ∈ e.queue
      · have hne : id ≠ id0 := fun h => hq (h ▸ hmem)
        rcases cancelJob_found e id0 hmem with ⟨m, hm⟩
        rw [hm] at he'
        subst he'
        show jfind (setPositions _ (jupdate e.jobs id0 _) (e.queue.filter _) 0) id = some j
        rw [jfind_setPositions_notMem]
        · rw [jfind_jupdate_ne _ _ _ _ hne]
          exact hj
        · intro hmem2
          exact hq (List.mem_of_mem_filter hmem2)
      · rw [cancelJob_not_found e id0 hmem] at he'
        subst he'
        exact hj
  | killMark id0 =>
      rcases step_killMark_shape sf e e' id0 hstep with ⟨_, he'⟩
      subst he'
      exact hj
  | killRead =>
      rcases step_killRead_shape sf e e' hstep with ⟨_, _, he'⟩
      subst he'
      exact hj
  | killSignal =>
      rcases step_killSignal_shape sf e e' hstep with ⟨_, _, _, h2⟩
      rcases h2 with ⟨he', _⟩ | ⟨_, _, _, he'⟩ <;> subst he' <;> exact hj
  | killWrite =>
      rcases step_killWrite_shape sf e e' hstep with ⟨id0, hk, he'⟩
      have hne : id ≠ id0 := by
        have hb : labelTouches e .killWrite id = false := hl
        simp only [labelTouches, hk] at hb
        intro heq
        rw [heq] at hb
        simp at hb
      subst he'
      show jfind (jupdate e.jobs id0 killUpd) id = some j
      rw [jfind_jupdate_ne _ _ _ _ hne]
      exact hj
  | schedTake =>
      rcases step_schedTake_shape sf e e' hstep with ⟨_, _, _, _, he'⟩
      subst he'
      exact hj
  | schedSnap =>
      rcases step_schedSnap_shape sf e e' hstep with ⟨_, _, h2⟩
      rcases h2 with he' | ⟨_, _, he'⟩ <;> subst he' <;> exact hj
  | schedDur probe =>
      rcases step_schedDur_shape sf e e' probe hstep with ⟨_, _, _, _, h2⟩
      rcases h2 with he' | ⟨_, _, he'⟩ <;> subst he' <;> exact hj
  | schedStartEst =>
      rcases step_schedStartEst_shape sf e e' hstep with ⟨_, _, _, _, he'⟩
      subst he'
      exact hj
  | schedSetWorker =>
      rcases step_schedSetWorker_shape sf e e' hstep with ⟨_, _, _, _, he'⟩
      subst he'
      exact hj
  | schedWorkerRet out =>
      rcases step_schedWorkerRet_shape sf e e' out hstep with ⟨_, _, _, _, he'⟩
      subst he'
      exact hj
  | schedClearWorker =>
      rcases step_schedClearWorker_shape sf e e' hstep with ⟨_, _, _, _, _, he'⟩
      subst he'
      exact hj
  | schedCloseStop =>
      rcases step_schedCloseStop_shape sf e e' hstep with ⟨_, _, _, _, _, he'⟩
      subst he'
      exact hj
  | schedDecide =>
      rcases step_schedDecide_shape sf e e' hstep with ⟨_, _, _, _, he'⟩
      subst he'
      exact hj
  | schedFinalWrite =>
      rcases step_schedFinalWrite_shape sf e e' hstep with ⟨fid, args, hspc, he'⟩
      subst he'
      have hne : id ≠ fid := by
        intro h
        apply hcur
        rw [hspc, h]
        rfl
      show jfind (jupdate e.jobs fid (applyUpd args)) id = some j
      rw [jfind_jupdate_ne _ _ _ _ hne]
      exact hj
  | schedPop =>
      rcases step_schedPop_shape sf e e' hstep with ⟨_, he'⟩
      subst he'
      exact hj
  | schedRepos =>
      rcases step_schedRepos_shape sf e e' hstep with ⟨_, he'⟩
      subst he'
      show jfind (setPositions _ e.jobs e.queue 0) id = some j
      rw [jfind_setPositions_notMem _ _ _ hq]
      exact hj
  | estTick i el =>
      rcases step_estTick_shape sf e e' i el hstep with ⟨_, _, _, _, h2⟩
      rcases h2 with ⟨_, he'⟩ | ⟨_, he'⟩ <;> subst he' <;> exact hj
  | estWrite i =>
      rcases step_estWrite_shape sf e e' i hstep with ⟨est, el, hgi, hpend, hd, he'⟩
      subst he'
      have hstop0 : est.stopped = false := by
        simp only [syncOK, hgi] at hsync
        simpa using hsync
      have hlive := hi.estLive i est hgi hstop0
      have hne : id ≠ est.job := by
        intro h
        apply hcur
        rw [h]
        exact hlive.2
      show jfind (jupdate e.jobs est.job (applyUpd _)) id = some j
      rw [jfind_jupdate_ne _ _ _ _ hne]
      exact hj
  | estStop i =>
      rcases step_estStop_shape sf e e' i hstep with ⟨_, _, _, he'⟩
      subst he'
      exact hj

theorem c4_terminal_stable_witness :
    jfind c4WitnessEngine2.jobs "A" = some c4WitnessJob := by
  refine c4_terminal_stable (3/2) c4WitnessEngine .killWrite c4WitnessEngine2
    "A" c4WitnessJob ⟨c4WitnessTrace, rfl⟩ rfl rfl
    (Or.inr (by decide)) (by decide) (by decide) (by decide)

end Transcriber
